import Mathlib

/-!
Verification of the S7Client datablock codec and request scheduler
(`src/example/client.js`, library part).  The JavaScript source is embedded
shallowly: buffers become lists of bytes, the codec loops become structurally
recursive Lean functions threading the same `offset` and `bits` cursor state,
and the stateful scheduler pieces are modelled with explicit outcome oracles.

Modelling conventions, stated once here and referenced below:

* A Node `Buffer` is a `List Nat` of bytes.  Node read accessors throw on
  out-of-range offsets and every caller in the source wraps reads in
  `try/catch`; the model instead returns byte `0` out of range.  Every theorem
  below only evaluates in-range accesses, where the two semantics agree.
  Node write accessors throw (and the source catches, so nothing is written)
  when the value is out of range or the offset is out of bounds; the model
  makes such writes a no-op, which is the same observable behaviour.

* JavaScript numbers appearing as REAL/FLOAT (respectively LREAL/DOUBLE)
  values are modelled by their 32-bit (64-bit) IEEE-754 big-endian bit
  patterns: `readFloatBE` and `writeFloatBE` are mutually inverse bijections
  between float32 values and 4-byte patterns (likewise the double accessors),
  so a value-level round trip in the source corresponds exactly to the
  pattern-level round trip proved here.

* JavaScript strings are modelled as lists of character codes
  (`charCodeAt` / `fromCharCode` become list indexing / list literals).
-/

/-- JS helper `roundUpToEven` from the source: `n => n + n % 2`. -/
def roundUpToEven (n : Nat) : Nat := n + n % 2

/-- The closed set of S7 data type names, after the `toLocaleUpperCase`
normalisation the source applies on every walk (lower-case spellings map to
the same constructors). -/
inductive DataType where
  | SINT | USINT | INT | UINT | WORD | DINT | UDINT | DWORD
  | REAL | FLOAT | LREAL | DOUBLE | CHAR | STRING
  | BIT | BOOL | BYTE | TIME | TIMER | S5TIME | IEC_TIMER
deriving DecidableEq

/-- Source `numberTypes` membership test (`typeIsNumber`).  Note that BOOL,
CHAR, STRING and IEC_TIMER are not number types, while BIT is. -/
def typeIsNumber : DataType → Bool
  | .SINT | .USINT | .INT | .UINT | .WORD | .DINT | .UDINT | .DWORD
  | .REAL | .FLOAT | .LREAL | .DOUBLE | .BIT | .BYTE | .TIME | .TIMER
  | .S5TIME => true
  | _ => false

/-- Source `objectTypes` membership test (`typeIsObject`). -/
def typeIsObject : DataType → Bool
  | .IEC_TIMER => true
  | _ => false

/-- Source `isBoolean`: `type === BIT || type === BOOL`. -/
def isBoolean : DataType → Bool
  | .BIT | .BOOL => true
  | _ => false

/-- Source `isString`: `type === STRING`. -/
def isString : DataType → Bool
  | .STRING => true
  | _ => false

/-- Source `typeList` / `variableTypeSize`: fixed byte width per type name
(unknown names default to 2 in the source; the model's type set is closed). -/
def variableTypeSize : DataType → Nat
  | .SINT => 1 | .USINT => 1 | .INT => 2 | .UINT => 2 | .WORD => 2
  | .DINT => 4 | .UDINT => 4 | .DWORD => 4 | .REAL => 4 | .FLOAT => 4
  | .LREAL => 8 | .DOUBLE => 8 | .CHAR => 1 | .STRING => 256
  | .BIT => 1 | .BOOL => 1 | .BYTE => 1 | .TIME => 4 | .TIMER => 4
  | .S5TIME => 2 | .IEC_TIMER => 16

/-- A JavaScript value as it flows through the codec: booleans, (integer or
bit-pattern, see header) numbers, strings as code lists, `NaN`, `undefined`,
arrays, and the `{name, type, value}` records the IEC_TIMER parser emits. -/
inductive S7Val where
  | bool (b : Bool)
  | num (n : Int)
  | str (s : List Nat)
  | nan
  | undef
  | arr (l : List S7Val)
  | obj (name : String) (type : DataType) (value : S7Val)

/-- JS truthiness of an `S7Val` (`!!value`). -/
def jsTruthy : S7Val → Bool
  | .bool b => b
  | .num n => n ≠ 0
  | .str s => s ≠ []
  | .nan => false
  | .undef => false
  | .arr _ => true
  | .obj _ _ _ => true

/-- JS numeric coercion `+value`, with `none` standing for `NaN`.
Deviation note: a numeric string such as `"12"` coerces to a number in JS but
to `NaN` here; no theorem below evaluates the coercion on a string, array or
record value. -/
def jsFiniteNum : S7Val → Option Int
  | .num n => some n
  | .bool b => some (if b then 1 else 0)
  | _ => none

/-- The walk-level coercion applied to number-typed items before encoding and
after array decoding: `isFinite(+v) ? +v : 0`. -/
def coerceNum (t : DataType) (v : S7Val) : S7Val :=
  if typeIsNumber t then .num ((jsFiniteNum v).getD 0) else v

/-- JS string coercion `value + ""` restricted to the string case; other
values stringify in JS (for example `3` to `"3"`), a path no theorem below
evaluates. -/
def jsToStr : S7Val → List Nat
  | .str s => s
  | _ => []

/-- JS `x || d` for an optional numeric field (`0`, like a missing field, is
falsy and selects the default). -/
def jsOrNat (o : Option Nat) (d : Nat) : Nat :=
  match o with
  | some k => if k = 0 then d else k
  | none => d

/-- Normalisation of a declared array count, from the source line
`item.size = item.size && item.size > 0 ? Math.round(item.size) : 1`
(counts are modelled as naturals, so `Math.round` is the identity). -/
def normSize (o : Option Nat) : Nat :=
  match o with
  | some k => if 0 < k then k else 1
  | none => 1

/-- JS truthy test `size && size > 1` on a raw declared count. -/
def sizeGT1 (o : Option Nat) : Bool :=
  match o with
  | some k => 1 < k
  | none => false

/-! ## Buffers -/

/-- A Node `Buffer`: a list of bytes. -/
abbrev Buffer := List Nat

/-- Source `Buffer.alloc(n)`: `n` zero bytes. -/
def Buffer.alloc (n : Nat) : Buffer := List.replicate n 0

/-- Node `buffer.readUInt8(off)` (out-of-range reads: see header). -/
def readUInt8 (b : Buffer) (off : Nat) : Nat := b.getD off 0

/-- Big-endian unsigned read of `n` bytes starting at `off`; `readUIntN b off 1`
is `readUInt8`, `n = 2` is `readUInt16BE`, `n = 4` is `readUInt32BE`. -/
def readUIntN (b : Buffer) (off : Nat) : Nat → Nat
  | 0 => 0
  | n + 1 => readUIntN b off n * 256 + b.getD (off + n) 0

/-- Big-endian signed read of `n` bytes (two's complement), covering
`readInt8`, `readInt16BE`, `readInt32BE`. -/
def readIntN (b : Buffer) (off n : Nat) : Int :=
  let u := readUIntN b off n
  if u < 2 ^ (8 * n - 1) then (u : Int) else (u : Int) - 2 ^ (8 * n)

/-- Write the `n` low bytes of `v` big-endian at `off` (no range guard; the
guarded entry points are below). -/
def writeUIntNAux (b : Buffer) (off : Nat) : Nat → Nat → Buffer
  | 0, _ => b
  | n + 1, v => writeUIntNAux (b.set (off + n) (v % 256)) off n (v / 256)

/-- Node `writeUIntBE` family (`writeUInt8` / `writeUInt16BE` / `writeUInt32BE`):
writes only when the value is a number (`some`) in `[0, 2^(8n))` and the range
fits the buffer, otherwise Node throws, the source catches, and nothing is
written. -/
def writeUIntN (b : Buffer) (off n : Nat) (v : Option Int) : Buffer :=
  match v with
  | none => b
  | some v =>
    if 0 ≤ v ∧ v < (2 : Int) ^ (8 * n) ∧ off + n ≤ b.length then
      writeUIntNAux b off n v.toNat
    else b

/-- Node `writeIntBE` family (`writeInt8` / `writeInt16BE` / `writeInt32BE`):
range-guarded two's-complement write. -/
def writeIntN (b : Buffer) (off n : Nat) (v : Option Int) : Buffer :=
  match v with
  | none => b
  | some v =>
    if -((2 : Int) ^ (8 * n - 1)) ≤ v ∧ v < (2 : Int) ^ (8 * n - 1) ∧ off + n ≤ b.length then
      writeUIntNAux b off n (v.emod ((2 : Int) ^ (8 * n))).toNat
    else b

/-! ## Data model records -/

/-- A declared datablock item (`S7DBStructureItem` in the source): the
`offset` field is the string annotation (`toFixed(1)`) the layout calculator
writes back into the item. -/
structure S7DBStructureItem where
  name : String
  type : DataType
  size : Option Nat
  strlen : Option Nat
  value : S7Val
  offset : Option String

/-- A datablock declaration (`S7DBStructure`). -/
structure S7DBStructure where
  name : Option String
  db : Nat
  offset : Nat
  items : List S7DBStructureItem

/-- One decoded output entry (`S7DBData`). -/
structure S7Data where
  name : String
  type : DataType
  value : S7Val

/-- The `toFixed(1)` annotation string `(start + total + 0.1 * bits).toFixed(1)`;
with `bits ≤ 7` the float rounds exactly to one decimal digit. -/
def offsetAnnot (n : Nat) (bits : Nat) : String :=
  toString n ++ "." ++ toString bits

/-! ## Layout calculator (`DBStructure_calculateSize`)

The source mutates each item in place (normalised `type`, `size`, `strlen`
and the `offset` annotation) while accumulating `total_size` and `used_bits`;
the model returns the annotated items alongside the running state. -/

/-- One pass of the `DBStructure_calculateSize` loop over the remaining items,
threading `(total_size, used_bits)` and collecting the annotated items. -/
def calcItems : List S7DBStructureItem → Nat → Nat → Nat →
    Nat × Nat × List S7DBStructureItem
  | [], _start, total, bits => (total, bits, [])
  | it :: rest, start, total, bits =>
    let size := normSize it.size
    let isStr := isString it.type
    let isBool := isBoolean it.type
    let strlen1 : Option Nat := if isStr then some (jsOrNat it.strlen 254) else it.strlen
    let strlen_temp : Nat :=
      if isStr then (match strlen1 with | some k => k | none => 0) + 2 else 0
    let strlen_e := strlen_temp + strlen_temp % 2
    let typesize := if isStr then strlen_e else variableTypeSize it.type
    -- flush a partial boolean byte before any non-boolean item
    let total1 := if 0 < bits ∧ isBool = false then
        (if 1 < typesize then roundUpToEven (total + 1) else total + 1) else total
    let bits1 := if 0 < bits ∧ isBool = false then 0 else bits
    let total2 := if isStr then roundUpToEven total1 else total1
    let it1 : S7DBStructureItem :=
      ⟨it.name, it.type, some size, strlen1, it.value,
        some (offsetAnnot (start + total2) bits1)⟩
    let st2 : Nat × Nat :=
      if 1 < size then
        let t := if 0 < bits1 then total2 + 1 else total2
        let t := roundUpToEven t
        let t := if isBool then t + 2 * ((size + 15) / 16) else t + typesize * size
        (roundUpToEven t, 0)
      else
        if isBool then
          (if 8 ≤ bits1 + 1 then (total2 + 1, 0) else (total2, bits1 + 1))
        else
          let t := if 0 < bits1 then total2 + 1 else total2
          let t := if 1 < typesize then roundUpToEven t else t
          (t + typesize, 0)
    let r := calcItems rest start st2.1 st2.2
    (r.1, r.2.1, it1 :: r.2.2)

/-- Source `DBStructure_calculateSize(items, start_offset)`: the returned
total size, paired with the items as the call leaves them (annotated in
place in the source). -/
def DBStructure_calculateSize (items : List S7DBStructureItem) (start : Nat) :
    Nat × List S7DBStructureItem :=
  let r := calcItems items start 0 0
  let total := if 0 < r.2.1 then r.1 + 1 else r.1
  (roundUpToEven total, r.2.2)

/-! ## Per-type codecs -/

/-- Digits of `n` in the given base, most significant first, as
`Number.prototype.toString(base)` renders them (`0` renders as `"0"`).
The first argument is recursion fuel (`n` itself always suffices). -/
def digitsRevAux (base : Nat) : Nat → Nat → List Nat
  | 0, _ => []
  | fuel + 1, n => if n = 0 then [] else n % base :: digitsRevAux base fuel (n / base)

/-- Rendered digit list of `n` in `base`, most significant first. -/
def jsDigits (base n : Nat) : List Nat :=
  if n = 0 then [0] else (digitsRevAux base n n).reverse

/-- Source `S5Time_timebase = [10, 100, 1000, 10000]`. -/
def S5Time_timebase : List Nat := [10, 100, 1000, 10000]

/-- The coercion `+(n.toString(16))`: the hex digits of `n` are reinterpreted
as decimal digits; any digit of 10 or more renders as a letter and the
coercion yields `NaN` (`none`). -/
def decOfHexDigits (n : Nat) : Option Nat :=
  let ds := jsDigits 16 n
  if ds.all (· < 10) then some (ds.foldl (fun acc d => acc * 10 + d) 0) else none

/-- Source `parseS5TimeFromBuffer`: 2-byte big-endian raw value, bits 12-13
select the timebase, the low 12 bits are re-read as decimal digits and scaled;
`none` is the `NaN` result of a letter digit. -/
def parseS5TimeFromBuffer (b : Buffer) (off : Nat) : Option Nat :=
  let raw := readUIntN b off 2
  let factor := (raw &&& 0x3000) >>> 12
  match decOfHexDigits (raw &&& 0x0FFF) with
  | some v => some (v * S5Time_timebase.getD factor 0)
  | none => none

/-- The coercion `+("0x" + String(n))`: the decimal digits of `n` are read
back as hexadecimal digits. -/
def hexOfDecDigits (n : Nat) : Nat :=
  (jsDigits 10 n).foldl (fun acc d => acc * 16 + d) 0

/-- Source `encodeS5TimeToBuffer`: clamp to `[0, 9990000]`, pick the smallest
timebase whose scaled value fits three digits, truncate to three digits, and
store those decimal digits as hex nibbles under the factor bits.  A `NaN`
input fails both clamp comparisons, falls through to factor 3 and scaled
value 0, and writes `0x3000`. -/
def encodeS5TimeToBuffer (value : Option Int) (b : Buffer) (off : Nat) : Buffer :=
  match value with
  | none => writeUIntN b off 2 (some 0x3000)
  | some v0 =>
    let v : Nat := if v0 > 9990000 then 9990000 else if v0 < 0 then 0 else v0.toNat
    let factor : Nat :=
      if v < 9990 then 0 else if v < 99900 then 1 else if v < 999000 then 2 else 3
    let scaled := v / 10 ^ (factor + 1)
    let val := ((jsDigits 10 scaled).take 3).foldl (fun acc d => acc * 10 + d) 0
    let output := (factor <<< 12) ||| (hexOfDecDigits val &&& 0x0FFF)
    writeUIntN b off 2 (some (output : Int))

/-- Source `parseBooleanFromBuffer`: `i = index % 8` (sign-preserving JS
remainder), one byte of displacement past index 7, a signed byte read, and
`(byte >> i) & 1` where the JS shift count is `i & 31` and the shift is
arithmetic (floor division). -/
def parseBooleanFromBuffer (b : Buffer) (off : Nat) (index : Int) : Bool :=
  let i := Int.tmod index 8
  let add : Nat := if index > 7 then 1 else 0
  let byte := readIntN b (off + add) 1
  let j := (Int.emod i 32).toNat
  (Int.fdiv byte (2 ^ j)).emod 2 = 1

/-- Source `parseTimeFromBuffer`: raw big-endian 32-bit milliseconds. -/
def parseTimeFromBuffer (b : Buffer) (off : Nat) : Nat := readUIntN b off 4

/-- Source `parseCharacterFromBuffer`: a one-character string from one byte. -/
def parseCharacterFromBuffer (b : Buffer) (off : Nat) : List Nat := [readUInt8 b off]

/-- Source `stringTypeSize`: stored capacity byte plus the 2-byte header,
rounded up to even. -/
def stringTypeSize (b : Buffer) (off : Nat) : Nat :=
  let m := readUInt8 b off + 2
  m + m % 2

/-- Source `parseStringFromBuffer`: read the used-length byte and that many
character bytes.  The `stringTypeSize` capacity check only logs a diagnostic
and does not affect the result. -/
def parseStringFromBuffer (b : Buffer) (off : Nat) (_expected : Nat) : List Nat :=
  let strlen := readUInt8 b (off + 1)
  (List.range strlen).map (fun i => readUInt8 b (off + 2 + i))

/-- Source `parseIECTimerFromBuffer`: the six sub-fields at fixed sub-offsets.
Each field calls `parseValueFromBuffer` at a scalar type in the source; those
scalar cases are instantiated inline here (UDINT and TIME are 4-byte unsigned
reads, UINT a 2-byte unsigned read, BOOL a bit test at the given index). -/
def parseIECTimerFromBuffer (b : Buffer) (off : Nat) : List S7Val :=
  [.obj "start" .UDINT (.num (readUIntN b off 4)),
   .obj "PT" .TIME (.num (readUIntN b (off + 4) 4)),
   .obj "ET" .TIME (.num (readUIntN b (off + 8) 4)),
   .obj "IN" .BOOL (.bool (parseBooleanFromBuffer b (off + 12) 0)),
   .obj "Q" .BOOL (.bool (parseBooleanFromBuffer b (off + 12) 1)),
   .obj "end" .UINT (.num (readUIntN b (off + 14) 2))]

/-- Source `parseValueFromBuffer`: dispatch on the (upper-cased) type name.
REAL/FLOAT and LREAL/DOUBLE are `readFloatBE` / `readDoubleBE`, modelled at
bit-pattern level (see header). -/
def parseValueFromBuffer (b : Buffer) (t : DataType) (off : Nat) (i : Int)
    (expected : Nat) : S7Val :=
  match t with
  | .BIT => .bool (parseBooleanFromBuffer b off i)
  | .BOOL => .bool (parseBooleanFromBuffer b off i)
  | .BYTE => .num (readUIntN b off 1)
  | .SINT => .num (readIntN b off 1)
  | .USINT => .num (readUIntN b off 1)
  | .INT => .num (readIntN b off 2)
  | .UINT => .num (readUIntN b off 2)
  | .WORD => .num (readUIntN b off 2)
  | .DINT => .num (readIntN b off 4)
  | .UDINT => .num (readUIntN b off 4)
  | .DWORD => .num (readUIntN b off 4)
  | .REAL => .num (readUIntN b off 4)
  | .FLOAT => .num (readUIntN b off 4)
  | .LREAL => .num (readUIntN b off 8)
  | .DOUBLE => .num (readUIntN b off 8)
  | .CHAR => .str (parseCharacterFromBuffer b off)
  | .STRING => .str (parseStringFromBuffer b off expected)
  | .TIME => .num (parseTimeFromBuffer b off)
  | .TIMER => .num (parseTimeFromBuffer b off)
  | .S5TIME =>
    match parseS5TimeFromBuffer b off with
    | some v => .num (v : Int)
    | none => .nan
  | .IEC_TIMER => .arr (parseIECTimerFromBuffer b off)

/-- Source `encodeBooleanToBuffer`: read-modify-write of one byte; the JS
shift count is `index & 31`, and setting bit 31 makes the Int32 byte negative
so `writeUInt8` throws and the write is skipped, which the `writeUIntN` range
guard reproduces (clearing bit 31 leaves the byte unchanged and in range). -/
def encodeBooleanToBuffer (value : Bool) (b : Buffer) (off : Nat) (index : Int) : Buffer :=
  let j := (Int.emod index 32).toNat
  let byte := readUInt8 b off
  let byte1 : Nat :=
    if value then byte ||| (1 <<< j) else byte &&& (0xFFFFFFFF ^^^ (1 <<< j))
  writeUIntN b off 1 (some (byte1 : Int))

/-- Source `encodeCharacterToBuffer`: write `charCodeAt(0)`; on an empty
string that index is `NaN` and the write is skipped. -/
def encodeCharacterToBuffer (value : List Nat) (b : Buffer) (off : Nat) : Buffer :=
  match value with
  | [] => writeUIntN b off 1 none
  | c :: _ => writeUIntN b off 1 (some (c : Int))

/-- The character loop of `encodeStringToBuffer` (`chars[i]` for `i` below the
truncated length; the count never exceeds the list length at call sites). -/
def encodeStringChars : List Nat → Buffer → Nat → Nat → Buffer
  | _, b, _, 0 => b
  | chars, b, off, k + 1 =>
    let b1 := encodeCharacterToBuffer [chars.headD 0] b off
    encodeStringChars chars.tail b1 (off + 1) k

/-- Source `encodeStringToBuffer`: capacity byte, used-length byte, then the
truncated content bytes (`strlen` is the even full footprint, so the content
capacity is `strlen - 2`; call sites always pass `strlen ≥ 4`). -/
def encodeStringToBuffer (value : List Nat) (b : Buffer) (off : Nat) (strlen : Nat) : Buffer :=
  let cl := value.length
  let strlen_max := strlen - 2
  let strlen_temp := if cl > strlen_max then strlen_max else cl
  let b1 := writeUIntN b off 1 (some (strlen_max : Int))
  let b2 := writeUIntN b1 (off + 1) 1 (some (strlen_temp : Int))
  encodeStringChars value b2 (off + 2) strlen_temp

/-- Source `encodeTimeToBuffer`: `writeUInt32BE`. -/
def encodeTimeToBuffer (value : Option Int) (b : Buffer) (off : Nat) : Buffer :=
  writeUIntN b off 4 value

/-- Source `encodeValueToBuffer`: dispatch on the type name.  The switch has
no BIT case and its IEC_TIMER case is commented out, so both fall to the
default `writeUInt16BE` branch (the walks never call this for IEC_TIMER, but
they do for BIT).  REAL/FLOAT and LREAL/DOUBLE are `writeFloatBE` /
`writeDoubleBE`, modelled at bit-pattern level (see header). -/
def encodeValueToBuffer (b : Buffer) (v : S7Val) (t : DataType) (off : Nat)
    (i : Int) (strlen : Nat) : Buffer :=
  match t with
  | .BOOL => encodeBooleanToBuffer (jsTruthy v) b off i
  | .BYTE => writeUIntN b off 1 (jsFiniteNum v)
  | .SINT => writeIntN b off 1 (jsFiniteNum v)
  | .USINT => writeUIntN b off 1 (jsFiniteNum v)
  | .INT => writeIntN b off 2 (jsFiniteNum v)
  | .UINT => writeUIntN b off 2 (jsFiniteNum v)
  | .WORD => writeUIntN b off 2 (jsFiniteNum v)
  | .DINT => writeIntN b off 4 (jsFiniteNum v)
  | .UDINT => writeUIntN b off 4 (jsFiniteNum v)
  | .DWORD => writeUIntN b off 4 (jsFiniteNum v)
  | .REAL => writeUIntN b off 4 (jsFiniteNum v)
  | .FLOAT => writeUIntN b off 4 (jsFiniteNum v)
  | .LREAL => writeUIntN b off 8 (jsFiniteNum v)
  | .DOUBLE => writeUIntN b off 8 (jsFiniteNum v)
  | .CHAR => encodeCharacterToBuffer (jsToStr v) b off
  | .STRING => encodeStringToBuffer (jsToStr v) b off strlen
  | .TIME => encodeTimeToBuffer (jsFiniteNum v) b off
  | .TIMER => encodeTimeToBuffer (jsFiniteNum v) b off
  | .S5TIME => encodeS5TimeToBuffer (jsFiniteNum v) b off
  | .BIT => writeUIntN b off 2 (jsFiniteNum v)
  | .IEC_TIMER => writeUIntN b off 2 (jsFiniteNum v)

/-! ## The decode walk (`DBStructure_parse`) -/

/-- JS `Array.isArray`. -/
def isArr : S7Val → Bool
  | .arr _ => true
  | _ => false

/-- The element list of an array value; `.length` of anything else walks
nothing in the flattening loops below. -/
def jsArrElems : S7Val → List S7Val
  | .arr l => l
  | _ => []

/-- Destructuring `{name, type, value}` of one IEC_TIMER sub-entry into a
flattened `parent.field` output row (a non-record element would destructure
to `undefined` fields; that path is unreachable from the parser). -/
def childData (parent : String) (v : S7Val) : S7Data :=
  match v with
  | .obj n t val => ⟨parent ++ "." ++ n, t, val⟩
  | _ => ⟨parent ++ "." ++ "undefined", .UINT, .undef⟩

/-- Flattened `parent[i].field` output row for IEC_TIMER arrays. -/
def childDataIdx (parent : String) (i : Nat) (v : S7Val) : S7Data :=
  match v with
  | .obj n t val => ⟨parent ++ "[" ++ toString i ++ "]." ++ n, t, val⟩
  | _ => ⟨parent ++ "[" ++ toString i ++ "]." ++ "undefined", .UINT, .undef⟩

/-- The element loop of the decode walk for `size > 1` items. -/
def parseArrayLoop (b : Buffer) (t : DataType) (typesize : Nat) :
    Nat → Nat → Nat → List S7Val × Nat × Nat
  | 0, off, bits => ([], off, bits)
  | k + 1, off, bits =>
    let v0 := parseValueFromBuffer b t off ((bits : Int) - 1) typesize
    let v1 := coerceNum t v0
    let v2 := if isBoolean t then .bool (jsTruthy v1) else v1
    let st : Nat × Nat :=
      if isBoolean t then (if 8 ≤ bits + 1 then (off + 1, 0) else (off, bits + 1))
      else (off + typesize, bits)
    let r := parseArrayLoop b t typesize k st.1 st.2
    (v2 :: r.1, r.2.1, r.2.2)

/-- The item loop of `DBStructure_parse`, threading `(offset, bits)` exactly
as the source does and flattening IEC_TIMER results. -/
def parseItems : List S7DBStructureItem → Buffer → Nat → Nat → List S7Data × Nat × Nat
  | [], _, off, bits => ([], off, bits)
  | it :: rest, b, off, bits =>
    let isBool := isBoolean it.type
    let isStr := isString it.type
    let strlen_temp := jsOrNat it.strlen 254 + 2
    let strlen_e := strlen_temp + strlen_temp % 2
    let typesize := if isStr then strlen_e else variableTypeSize it.type
    let st1 : Nat × Nat :=
      if isBool ∧ sizeGT1 it.size then (if 0 < bits then off + 1 else off, 0)
      else if isBool then (off, bits + 1)
      else (if 0 < bits then off + 1 else off, 0)
    let res : S7Val × Nat × Nat :=
      if sizeGT1 it.size then
        let off1 := roundUpToEven st1.1
        let r := parseArrayLoop b it.type typesize (it.size.getD 0) off1 st1.2
        (.arr r.1, roundUpToEven r.2.1, r.2.2)
      else
        let off1 := if 1 < typesize then roundUpToEven st1.1 else st1.1
        let v := parseValueFromBuffer b it.type off1 ((st1.2 : Int) - 1) typesize
        let off2 := off1 + (if isBool then 0 else typesize)
        let st2 : Nat × Nat := if 8 ≤ st1.2 then (off2 + 1, 0) else (off2, st1.2)
        (v, st2.1, st2.2)
    let out : List S7Data :=
      if typeIsObject it.type then
        if sizeGT1 it.size ∧ isArr res.1 then
          (jsArrElems res.1).enum.flatMap
            (fun p => (jsArrElems p.2).map (childDataIdx it.name p.1))
        else (jsArrElems res.1).map (childData it.name)
      else [⟨it.name, it.type, res.1⟩]
    let r := parseItems rest b res.2.1 res.2.2
    (out ++ r.1, r.2.1, r.2.2)

/-- Source `DBStructure_parse(db, buffer)`: the flat decoded output list
(`Buffer.from` is the identity on the byte-list model). -/
def DBStructure_parse (db : S7DBStructure) (buffer : Buffer) : List S7Data :=
  (parseItems db.items buffer 0 0).1

/-! ## The encode walk (`DBStructure_encode`) -/

/-- The element loop of the encode walk for `size > 1` items. -/
def encodeArrayLoop (t : DataType) (typesize : Nat) :
    Nat → List S7Val → Buffer → Nat → Nat → Buffer × Nat × Nat
  | 0, _, b, off, bits => (b, off, bits)
  | k + 1, vals, b, off, bits =>
    let val := vals.headD .undef
    let v := coerceNum t val
    let b1 :=
      if typeIsObject t then b
      else encodeValueToBuffer b v t off ((bits : Int) - 1) typesize
    let st : Nat × Nat :=
      if isBoolean t then (if 8 ≤ bits + 1 then (off + 1, 0) else (off, bits + 1))
      else (off + typesize, bits)
    encodeArrayLoop t typesize k vals.tail b1 st.1 st.2

/-- The item loop of `DBStructure_encode`, mirroring the decode walk's cursor
arithmetic (the single-item alignment condition is `typesize > 1 || isString`
in the source, where the decode walk has only `typesize > 1`). -/
def encodeItems : List S7DBStructureItem → Buffer → Nat → Nat → Buffer × Nat × Nat
  | [], b, off, bits => (b, off, bits)
  | it :: rest, b, off, bits =>
    let isBool := isBoolean it.type
    let isStr := isString it.type
    let strlen_temp := jsOrNat it.strlen 254 + 2
    let strlen_e := strlen_temp + strlen_temp % 2
    let typesize := if isStr then strlen_e else variableTypeSize it.type
    let st1 : Nat × Nat :=
      if isBool ∧ sizeGT1 it.size then (if 0 < bits then off + 1 else off, 0)
      else if isBool then (off, bits + 1)
      else (if 0 < bits then off + 1 else off, 0)
    let res : Buffer × Nat × Nat :=
      if sizeGT1 it.size ∧ isArr it.value then
        let off1 := roundUpToEven st1.1
        let r := encodeArrayLoop it.type typesize (it.size.getD 0) (jsArrElems it.value)
          b off1 st1.2
        (r.1, roundUpToEven r.2.1, r.2.2)
      else
        let off1 := if 1 < typesize ∨ isStr then roundUpToEven st1.1 else st1.1
        let v := coerceNum it.type it.value
        let b1 :=
          if typeIsObject it.type then b
          else encodeValueToBuffer b v it.type off1 ((st1.2 : Int) - 1) typesize
        let off2 := off1 + (if isBool then 0 else typesize)
        let st2 : Nat × Nat := if 8 ≤ st1.2 then (off2 + 1, 0) else (off2, st1.2)
        (b1, st2.1, st2.2)
    encodeItems rest res.1 res.2.1 res.2.2

/-- Source `DBStructure_encode(db)`: compute the layout (which annotates the
items in place), allocate a zero buffer of the computed size, and run the
encode walk over the annotated items. -/
def DBStructure_encode (db : S7DBStructure) : Buffer :=
  let r := DBStructure_calculateSize db.items db.offset
  (encodeItems r.2 (Buffer.alloc r.1) 0 0).1

/-- The datablock as `DBStructure_encode` leaves it: the layout pass has
annotated the items in place, and the subsequent `DBStructure_parse` in the
source sees exactly these mutated items. -/
def normalizeDB (db : S7DBStructure) : S7DBStructure :=
  ⟨db.name, db.db, db.offset, (DBStructure_calculateSize db.items db.offset).2⟩

/-! ## Request scheduler models

The transport collaborator is external; its behaviour is abstracted by an
outcome oracle `oracle k`, the result of the k-th raw transfer issued.
Returned alongside each result is the number of raw transfers performed. -/

/-- Source `read_with_retries` (inside `S7.read`): try the raw read; on
failure, recurse with a decremented budget while `retries > 1`, otherwise
rethrow.  The default budget is 3, so at most 3 raw transfers happen. -/
def read_with_retries (oracle : Nat → Except String Buffer) (calls retries : Nat) :
    Except String Buffer × Nat :=
  match oracle calls, retries with
  | .ok b, _ => (.ok b, calls + 1)
  | .error _, r + 2 => read_with_retries oracle (calls + 1) (r + 1)
  | .error e, _ => (.error e, calls + 1)

/-- Source `write_with_retries` (inside `S7.write`): despite the name there
is no retry loop; the single raw write either succeeds or its error is
wrapped in the fail message and rethrown at once. -/
def write_with_retries (oracle : Nat → Except String Unit) (calls : Nat) :
    Except String Unit × Nat :=
  match oracle calls with
  | .ok _ => (.ok (), calls + 1)
  | .error e => (.error ("S7 Write failed: " ++ e), calls + 1)

/-- Source `SequentialRequests.isAvailable(host)`: report the gate state and
leave it busy.  The 5000 ms auto-release timer is real time and outside the
model; the admission-loop theorems concern a gate that stays busy. -/
def SR_isAvailable (available : Bool) : Bool × Bool := (available, false)

/-- The exact string thrown by `getS7Data` / `setS7Data` on admission
exhaustion. -/
def unreachableMsg : String := "113: TCP : Unreachable peer"

/-- Observable trace of one single-target admission loop: its outcome, the
delays awaited in order, the number of transport dispatches, and the number
of gate checks performed. -/
structure AdmissionTrace where
  result : Except String (List S7Data)
  delays : List Nat
  transportCalls : Nat
  gateChecks : Nat

/-- The single-target branch of `getS7Data`: `for (i = 0; i < 20; i++)`,
awaiting `delay(50 * i)` before every check except at index 19, checking the
admission gate, and dispatching exactly one transport request (outcome
`result`, returned whether it resolved or threw, since both paths release the
gate and propagate) on the first available check.  Falling out of the loop
throws the unreachable-peer error.  The first argument is the remaining
iteration count (20 at entry). -/
def getS7DataLoop (result : Except String (List S7Data)) :
    Nat → Nat → Bool → AdmissionTrace
  | 0, _, _ => ⟨.error unreachableMsg, [], 0, 0⟩
  | fuel + 1, i, gate =>
    let ds : List Nat := if i < 19 then [50 * i] else []
    let chk := SR_isAvailable gate
    if chk.1 then ⟨result, ds, 1, 1⟩
    else
      let r := getS7DataLoop result fuel (i + 1) chk.2
      ⟨r.result, ds ++ r.delays, r.transportCalls, r.gateChecks + 1⟩

/-- Source `getS7Data` on a single (non-array) datablock, starting from a
given gate state. -/
def getS7Data_single (gate : Bool) (result : Except String (List S7Data)) :
    AdmissionTrace :=
  getS7DataLoop result 20 0 gate

/-- One batch-read output entry: successful entries are spread item by item
into the output, a failed entry contributes its carried error value. -/
inductive ReadEntry where
  | data (d : S7Data)
  | err (e : String)

/-- The array branch of `getS7Data`: every entry is awaited in order inside
its own `try/catch` (with a 5 ms settling delay between entries, not modelled
in the output), successes are spread, errors pushed in place, and the batch
itself always resolves with the collected list. -/
def getS7Data_batch (outcomes : List (Except String (List S7Data))) : List ReadEntry :=
  outcomes.flatMap fun o =>
    match o with
    | .ok items => items.map ReadEntry.data
    | .error e => [ReadEntry.err e]

/-- One batch-write output entry: the source pushes the literal `false` for a
successful entry and the carried error value for a failed one. -/
inductive WriteEntry where
  | success
  | failure (e : String)

/-- Test for the `false` marker (`output.every(x => x === false)`). -/
def WriteEntry.isSuccess : WriteEntry → Bool
  | .success => true
  | .failure _ => false

/-- The per-entry marker the `setS7Data` batch loop pushes: `false` on
success, the carried error value on failure. -/
def writeEntryOf : Except String Unit → WriteEntry
  | .ok _ => WriteEntry.success
  | .error e => WriteEntry.failure e

/-- The array branch of `setS7Data`: collect per-entry outcomes positionally,
resolve (with `undefined`) only when every entry carries `false`, and
otherwise THROW the collected array. -/
def setS7Data_batch (outcomes : List (Except String Unit)) :
    Except (List WriteEntry) Unit :=
  let output := outcomes.map writeEntryOf
  if output.all WriteEntry.isSuccess then .ok () else .error output

/-! ## Variable router (`PLC_handler`) -/

/-- One argument to the router's `read` / `write`, after the source's
argument flattening (the identity on an already-flat argument list): a
non-object primitive, or an object with optional `name` and `value`. -/
inductive PLCArg where
  | nonObject
  | obj (name : Option String) (value : Option S7Val)

/-- Name field of an argument (`undefined` on a primitive). -/
def plcArgName : PLCArg → Option String
  | .obj n _ => n
  | .nonObject => none

/-- Value field of an argument (`undefined` on a primitive). -/
def plcArgValue : PLCArg → Option S7Val
  | .obj _ v => v
  | .nonObject => none

/-- The validation loop of the router's `read`: first failing check wins.
A missing name and an empty-string name are both falsy in `if (!name)`. -/
def validateVarsRead : List PLCArg → Nat → Nat → Option String
  | [], _, _ => none
  | v :: rest, i, len =>
    match v with
    | .nonObject =>
      some ("Variable [" ++ toString (i + 1) ++ "/" ++ toString len ++ "] is not an object!")
    | .obj n _ =>
      match n with
      | none =>
        some ("Variable [" ++ toString (i + 1) ++ "/" ++ toString len ++
          "] parameter \"name\" is not defined!")
      | some s =>
        if s = "" then
          some ("Variable [" ++ toString (i + 1) ++ "/" ++ toString len ++
            "] parameter \"name\" is not defined!")
        else validateVarsRead rest (i + 1) len

/-- The validation loop of the router's `write`: as for `read`, plus the
`value === undefined` check. -/
def validateVarsWrite : List PLCArg → Nat → Nat → Option String
  | [], _, _ => none
  | v :: rest, i, len =>
    match v with
    | .nonObject =>
      some ("Variable [" ++ toString (i + 1) ++ "/" ++ toString len ++ "] is not an object!")
    | .obj n val =>
      match n with
      | none =>
        some ("Variable [" ++ toString (i + 1) ++ "/" ++ toString len ++
          "] parameter \"name\" is not defined!")
      | some s =>
        if s = "" then
          some ("Variable [" ++ toString (i + 1) ++ "/" ++ toString len ++
            "] parameter \"name\" is not defined!")
        else
          match val with
          | none =>
            some ("Variable [" ++ toString (i + 1) ++ "/" ++ toString len ++
              "] parameter \"value\" is not defined!")
          | some _ => validateVarsWrite rest (i + 1) len

/-- Linear first-match scan of all datablocks' items for a variable name. -/
def findOwner (datablocks : List S7DBStructure) (nm : String) :
    Option (S7DBStructure × S7DBStructureItem) :=
  match datablocks with
  | [] => none
  | db :: rest =>
    match db.items.find? (fun it => it.name == nm) with
    | some it => some (db, it)
    | none => findOwner rest nm

/-- Numeric coercion of the layout annotation string `"k.b"` stored in
`item.offset`.  The JS value is the float `k + b/10`; this model keeps only
the integer byte part (no modelled claim ever dispatches a request built
from a matched item, so the fractional bit index is never consulted). -/
def offsetAnnotNum (o : Option String) : Nat :=
  (((o.getD "").takeWhile (fun c => c ≠ Char.ofNat 46)).toNat?).getD 0

/-- The minimal single-item read request the router builds for a match. -/
def mkReadRequest (db : S7DBStructure) (it : S7DBStructureItem) : S7DBStructure :=
  ⟨db.name, db.db, offsetAnnotNum it.offset, [it]⟩

/-- The minimal single-item write request: item copied, value overridden,
local offset zeroed (the source stores the number `0` in the copied item's
`offset` slot). -/
def mkWriteRequest (db : S7DBStructure) (it : S7DBStructureItem) (v : S7Val) :
    S7DBStructure :=
  ⟨db.name, db.db, offsetAnnotNum it.offset,
    [⟨it.name, it.type, it.size, it.strlen, v, some "0"⟩]⟩

/-- Result shape of one router call, with the network dispatch, when it
happens, kept symbolic in the `dispatched` constructor. -/
inductive RouterResult where
  | undef
  | errorVal (msg : String)
  | dispatched (requests : List S7DBStructure)

/-- The router's `read(...variables)` up to its dispatch decision: validate,
build one minimal request per matched name, return `undefined` when no name
matched, and otherwise dispatch the request list. -/
def PLC_read (datablocks : List S7DBStructure) (vars : List PLCArg) :
    RouterResult :=
  if vars.length = 0 then .errorVal "No values given!"
  else
    match validateVarsRead vars 0 vars.length with
    | some e => .errorVal e
    | none =>
      let reqs := vars.filterMap (fun v =>
        match plcArgName v with
        | some nm => (findOwner datablocks nm).map (fun p => mkReadRequest p.1 p.2)
        | none => none)
      if reqs.length = 0 then .undef else .dispatched reqs

/-- The router's `write(...variables)` up to its dispatch decision. -/
def PLC_write (datablocks : List S7DBStructure) (vars : List PLCArg) :
    RouterResult :=
  if vars.length = 0 then .errorVal "No values given!"
  else
    match validateVarsWrite vars 0 vars.length with
    | some e => .errorVal e
    | none =>
      let reqs := vars.filterMap (fun v =>
        match plcArgName v, plcArgValue v with
        | some nm, some val =>
          (findOwner datablocks nm).map (fun p => mkWriteRequest p.1 p.2 val)
        | _, _ => none)
      if reqs.length = 0 then .undef else .dispatched reqs

/-! ## Well-typedness of item values, and claim inputs -/

/-- Classification of the scalar types whose encoder and decoder are exact
mutual inverses: unsigned widths (including the pattern-level floats and
TIME/TIMER), signed widths, one-byte characters, and single booleans.
BIT (encoded through the default 2-byte branch), STRING, S5TIME and
IEC_TIMER are deliberately not classified. -/
inductive ScalarKind where
  | uns (nbytes : Nat)
  | sgn (nbytes : Nat)
  | chr
  | bl
deriving DecidableEq

/-- The exact-round-trip kind of a data type, if any. -/
def scalarKind? : DataType → Option ScalarKind
  | .BYTE => some (.uns 1) | .USINT => some (.uns 1) | .SINT => some (.sgn 1)
  | .INT => some (.sgn 2) | .UINT => some (.uns 2) | .WORD => some (.uns 2)
  | .DINT => some (.sgn 4) | .UDINT => some (.uns 4) | .DWORD => some (.uns 4)
  | .REAL => some (.uns 4) | .FLOAT => some (.uns 4)
  | .LREAL => some (.uns 8) | .DOUBLE => some (.uns 8)
  | .TIME => some (.uns 4) | .TIMER => some (.uns 4)
  | .CHAR => some .chr
  | .BOOL => some .bl
  | _ => none

/-- A value of the declared scalar type, in the representable range of its
wire format. -/
def kindWT : ScalarKind → S7Val → Prop
  | .uns n, .num v => 0 ≤ v ∧ v < (2 : Int) ^ (8 * n)
  | .sgn n, .num v => -((2 : Int) ^ (8 * n - 1)) ≤ v ∧ v < (2 : Int) ^ (8 * n - 1)
  | .chr, .str s => ∃ c, s = [c] ∧ c ≤ 255
  | .bl, .bool _ => True
  | _, _ => False

/-- An item that carries a value of its declared type and whose type's codec
round-trips exactly: any classified scalar as a single value, or an array
(of declared length) of any classified scalar except single-bit booleans. -/
def goodItem (it : S7DBStructureItem) : Prop :=
  match scalarKind? it.type with
  | none => False
  | some k =>
    if sizeGT1 it.size then
      k ≠ .bl ∧ ∃ l, it.value = .arr l ∧ l.length = normSize it.size ∧ ∀ v ∈ l, kindWT k v
    else kindWT k it.value

/-- The output row the decode walk is expected to produce for an item whose
value survives the round trip unchanged. -/
def expectedData (it : S7DBStructureItem) : S7Data :=
  ⟨it.name, it.type, it.value⟩

/-- Bit-granular cursor position: `8 * offset + bits`. -/
def posOf (off bits : Nat) : Nat := 8 * off + bits

/-- Two buffers agree strictly below the cursor `(off, bits)`: on every byte
before `off`, and on the low `bits` bits of byte `off`. -/
def agreeBelow (b b1 : Buffer) (off bits : Nat) : Prop :=
  (∀ p, p < off → b1.getD p 0 = b.getD p 0) ∧
  (∀ j, j < bits → Nat.testBit (b1.getD off 0) j = Nat.testBit (b.getD off 0) j)

/-- Every stored byte is in range (allocation and all writes preserve it). -/
def WFBuf (b : Buffer) : Prop := ∀ p, b.getD p 0 < 256

/-- Sum of the items' minimal strides: declared type width times normalised
array count. -/
def minStrideSum (items : List S7DBStructureItem) : Nat :=
  (items.map (fun it => variableTypeSize it.type * normSize it.size)).sum

/-- Three consecutive single-bit booleans (C2 counterexample input). -/
def c2items : List S7DBStructureItem :=
  [⟨"b1", .BOOL, none, none, .undef, none⟩,
   ⟨"b2", .BOOL, none, none, .undef, none⟩,
   ⟨"b3", .BOOL, none, none, .undef, none⟩]

/-- A boolean-free, string-free item sequence (C2 witness input). -/
def c2wItems : List S7DBStructureItem :=
  [⟨"n1", .INT, none, none, .undef, none⟩,
   ⟨"n2", .BYTE, none, none, .undef, none⟩,
   ⟨"n3", .DINT, some 2, none, .undef, none⟩]

/-- A 30-character value for the C4 STRING scenario. -/
def c4value : List Nat := (List.range 30).map (fun i => 65 + i)

/-- A datablock with one STRING item of declared capacity 16 (C4 input). -/
def c4db : S7DBStructure :=
  ⟨none, 1, 0, [⟨"s", .STRING, none, some 16, .str c4value, none⟩]⟩

/-- A write-transfer oracle that fails once and would succeed on any retry
(C5 counterexample input). -/
def c5oracle : Nat → Except String Unit :=
  fun k => if k = 0 then .error "boom" else .ok ()

/-- A datablock with one IEC_TIMER item (C8 input). -/
def c8db : S7DBStructure :=
  ⟨none, 1, 0, [⟨"T", .IEC_TIMER, none, none, .undef, none⟩]⟩

/-- A raw declared item, as a caller supplies it (C9 counterexample input). -/
def c9item : S7DBStructureItem := ⟨"x", .UINT, none, none, .undef, none⟩

/-- One declared datablock for the C10 scenario. -/
def c10dbs : List S7DBStructure :=
  [⟨some "plc", 1, 0, [⟨"a", .UINT, none, none, .undef, none⟩]⟩]

/-- One well-formed variable whose name matches no declared item (C10). -/
def c10vars : List PLCArg := [.obj (some "zz") (some (.num 1))]

/-- A single BIT item carrying `true` (C1 counterexample input). -/
def c1bitdb : S7DBStructure :=
  ⟨none, 1, 0, [⟨"b", .BIT, none, none, .bool true, none⟩]⟩

/-- A mixed well-typed datablock over exact-round-trip types (C1 witness
input). -/
def c1gooddb : S7DBStructure :=
  ⟨none, 1, 0,
    [⟨"a", .UINT, none, none, .num 513, none⟩,
     ⟨"b", .BOOL, none, none, .bool true, none⟩,
     ⟨"c", .BOOL, none, none, .bool false, none⟩,
     ⟨"d", .SINT, none, none, .num (-5), none⟩,
     ⟨"e", .DINT, none, none, .num (-100000), none⟩,
     ⟨"f", .CHAR, none, none, .str [65], none⟩,
     ⟨"g", .WORD, some 3, none, .arr [.num 7, .num 8, .num 9], none⟩,
     ⟨"h", .LREAL, none, none, .num 1234567890123, none⟩]⟩

/-- Wire width in bytes of a classified scalar kind. -/
def kindBytes : ScalarKind → Nat
  | .uns n => n | .sgn n => n | .chr => 1 | .bl => 1

/-- Whether the classified scalar kind is numeric on the JS side. -/
def kindIsNum : ScalarKind → Bool
  | .uns _ => true | .sgn _ => true | .chr => false | .bl => false

/-- The post-layout form of `goodItem`: the layout pass has normalised the
declared count to an explicit `some k` with `k ≥ 1`, a single well-typed
scalar when `k = 1` and a non-boolean well-typed array of length `k`
otherwise. -/
def goodN (it : S7DBStructureItem) : Prop :=
  ∃ kind k, scalarKind? it.type = some kind ∧ it.size = some k ∧ 1 ≤ k ∧
    (k = 1 → kindWT kind it.value) ∧
    (1 < k → kind ≠ .bl ∧ ∃ l, it.value = .arr l ∧ l.length = k ∧ ∀ v ∈ l, kindWT kind v)

/-- The walk cursor's byte offset after flushing a partial boolean byte. -/
def flushOff (off bits : Nat) : Nat := if 0 < bits then off + 1 else off

/-- Word alignment applied before multi-byte scalars: round up to even. -/
def alignFor (n x : Nat) : Nat := if 1 < n then roundUpToEven x else x

/-! ## Theorems -/

/-- Helper: one failed attempt with at least two retries left recurses. -/
theorem read_retries_err_step (oracle : Nat → Except String Buffer)
    (calls r : Nat) (msg : String) (h : oracle calls = .error msg) :
    read_with_retries oracle calls (r + 2) = read_with_retries oracle (calls + 1) (r + 1) := by
  rw [read_with_retries.eq_def, h]

/-- Helper: a failed attempt with budget 1 propagates the error. -/
theorem read_retries_err_last (oracle : Nat → Except String Buffer)
    (calls : Nat) (msg : String) (h : oracle calls = .error msg) :
    read_with_retries oracle calls 1 = (.error msg, calls + 1) := by
  rw [read_with_retries.eq_def, h]

/-- Helper: a successful attempt returns at once. -/
theorem read_retries_ok (oracle : Nat → Except String Buffer)
    (calls r : Nat) (b : Buffer) (h : oracle calls = .ok b) :
    read_with_retries oracle calls r = (.ok b, calls + 1) := by
  rw [read_with_retries.eq_def, h]

/-- C3 counterexample: the S5TIME round trip of 1234 ms yields 1230 ms, which
is in neither of the claimed values 1200 and 1300 (the encoder selects the
10 ms timebase for values below 9990 ms, not the claimed 100 ms one). -/
theorem C3_counterexample :
    parseS5TimeFromBuffer (encodeS5TimeToBuffer (some 1234) (Buffer.alloc 2) 0) 0
      = some 1230 ∧ ¬(1230 = 1200 ∨ 1230 = 1300) := by
  exact ⟨rfl, by decide⟩

/-- C3 (amended): encoding 1234 ms with `encodeS5TimeToBuffer` and decoding
the two bytes with `parseS5TimeFromBuffer` yields 1230 ms, within one unit of
the 10 ms timebase the encoder selects for values below 9990 ms. -/
theorem C3_s5time_quantization :
    parseS5TimeFromBuffer (encodeS5TimeToBuffer (some 1234) (Buffer.alloc 2) 0) 0
      = some 1230 ∧ 1234 - 1230 ≤ 10 := by
  exact ⟨rfl, by decide⟩

/-- C4: encoding one STRING item of declared capacity 16 carrying a
30-character value produces an 18-byte buffer (capacity byte, used-length
byte, 16 content bytes), and decoding it returns exactly the first 16
characters of the value. -/
theorem C4_string_truncation :
    (DBStructure_encode c4db).length = 18 ∧
    DBStructure_parse (normalizeDB c4db) (DBStructure_encode c4db)
      = [⟨"s", .STRING, .str (c4value.take 16)⟩] := by
  exact ⟨rfl, rfl⟩

/-- C5 counterexample: a write transfer whose transport fails on the first
attempt (and would succeed on any retry) propagates the wrapped failure after
exactly one raw transfer — write transfers are not retried. -/
theorem C5_counterexample :
    write_with_retries c5oracle 0 = (.error "S7 Write failed: boom", 1) := rfl

/-- C5 (amended): read transfers are attempted up to 3 times — a persistent
transport failure is propagated after exactly 3 raw transfers, and a failure
on the first attempt alone is retried and recovered — while a write transfer
performs exactly one raw transfer, its failure wrapped and propagated without
retry. -/
theorem C5_retry_discipline (oracle : Nat → Except String Buffer)
    (h : ∀ k, ∃ msg, oracle k = .error msg) :
    (∃ msg, (read_with_retries oracle 0 3).1 = .error msg) ∧
    (read_with_retries oracle 0 3).2 = 3 ∧
    (∀ b, read_with_retries (fun k => if k = 0 then Except.error "E" else Except.ok b) 0 3
        = (Except.ok b, 2)) ∧
    (∀ w : Nat → Except String Unit, (write_with_retries w 0).2 = 1) := by
  obtain ⟨m0, h0⟩ := h 0
  obtain ⟨m1, h1⟩ := h 1
  obtain ⟨m2, h2⟩ := h 2
  have e3 : read_with_retries oracle 0 3 = (.error m2, 3) := by
    rw [read_retries_err_step oracle 0 1 m0 h0,
      read_retries_err_step oracle 1 0 m1 h1,
      read_retries_err_last oracle 2 m2 h2]
  refine ⟨⟨m2, by rw [e3]⟩, by rw [e3], ?_, ?_⟩
  · intro b
    rfl
  · intro w
    unfold write_with_retries
    cases w 0 <;> rfl

/-- Witness for C5 (amended) at the everywhere-failing oracle. -/
theorem C5_retry_discipline_witness :
    (∃ msg, (read_with_retries (fun _ => Except.error "E") 0 3).1 = .error msg) ∧
    (read_with_retries (fun _ => Except.error "E") 0 3).2 = 3 ∧
    (∀ b, read_with_retries (fun k => if k = 0 then Except.error "E" else Except.ok b) 0 3
        = (Except.ok b, 2)) ∧
    (∀ w : Nat → Except String Unit, (write_with_retries w 0).2 = 1) :=
  C5_retry_discipline (fun _ => Except.error "E") (fun _ => ⟨"E", rfl⟩)

/-- C6: a single-target request that finds its host's gate busy (and whose
auto-release timer never fires) checks the gate exactly 20 times, awaits the
delays 50 ms times the attempt index between checks, performs no transport
dispatch, and fails with the unreachable-peer error. -/
theorem C6_gate_busy_exhaustion (r : Except String (List S7Data)) :
    getS7Data_single false r
      = ⟨.error unreachableMsg, (List.range 19).map (fun i => 50 * i), 0, 20⟩ := rfl

/-- C7 counterexample: a two-entry batch write whose second entry fails
rejects (throws the positional output array) instead of resolving — for
writes, the batch call does not resolve with the mixed sequence. -/
theorem C7_counterexample :
    setS7Data_batch [.ok (), .error "boom"]
      = .error [.success, .failure "boom"] := rfl

/-- C7 (amended): a batch read always resolves, with a failed entry's error
carried in place between the spread items of its neighbours; a batch write
collects per-entry outcomes positionally (`false` markers and carried
errors), resolves when every entry succeeded, but rejects with the collected
positional array as soon as any entry failed. -/
theorem C7_batch_error_containment
    (pre post : List (Except String (List S7Data))) (e : String)
    (items : List S7Data)
    (writesOk writesBad : List (Except String Unit))
    (hok : ∀ w ∈ writesOk, w = .ok ())
    (hbad : ∃ w ∈ writesBad, ∃ msg, w = .error msg) :
    (getS7Data_batch (pre ++ .error e :: post)
      = getS7Data_batch pre ++ ReadEntry.err e :: getS7Data_batch post) ∧
    (getS7Data_batch (pre ++ .ok items :: post)
      = getS7Data_batch pre ++ items.map ReadEntry.data ++ getS7Data_batch post) ∧
    setS7Data_batch writesOk = .ok () ∧
    setS7Data_batch writesBad = .error (writesBad.map writeEntryOf) := by
  refine ⟨?_, ?_, ?_, ?_⟩
  · simp [getS7Data_batch]
  · simp [getS7Data_batch]
  · have hall : (writesOk.map writeEntryOf).all WriteEntry.isSuccess = true := by
      rw [List.all_eq_true]
      intro x hx
      obtain ⟨w, hw, rfl⟩ := List.mem_map.mp hx
      rw [hok w hw]
      rfl
    simp [setS7Data_batch, hall]
  · obtain ⟨w, hw, msg, hmsg⟩ := hbad
    subst hmsg
    have hall : (writesBad.map writeEntryOf).all WriteEntry.isSuccess = false := by
      apply Bool.eq_false_iff.mpr
      intro htrue
      rw [List.all_eq_true] at htrue
      have hx := htrue (writeEntryOf (Except.error msg))
        (List.mem_map.mpr ⟨Except.error msg, hw, rfl⟩)
      simp [writeEntryOf, WriteEntry.isSuccess] at hx
    simp [setS7Data_batch, hall]

/-- Witness for C7 (amended) at concrete one- and two-entry batches. -/
theorem C7_batch_error_containment_witness :
    (getS7Data_batch ([.ok [⟨"x", .UINT, .num 1⟩]] ++ .error "boom" :: [])
      = getS7Data_batch [.ok [⟨"x", .UINT, .num 1⟩]]
        ++ ReadEntry.err "boom" :: getS7Data_batch []) ∧
    (getS7Data_batch ([.ok [⟨"x", .UINT, .num 1⟩]] ++ .ok [⟨"y", .INT, .num 2⟩] :: [])
      = getS7Data_batch [.ok [⟨"x", .UINT, .num 1⟩]]
        ++ [⟨"y", .INT, .num 2⟩].map ReadEntry.data ++ getS7Data_batch []) ∧
    setS7Data_batch [.ok ()] = .ok () ∧
    setS7Data_batch [.ok (), .error "boom"]
      = .error ([.ok (), .error "boom"].map writeEntryOf) :=
  C7_batch_error_containment [.ok [⟨"x", .UINT, .num 1⟩]] [] "boom"
    [⟨"y", .INT, .num 2⟩] [.ok ()] [.ok (), .error "boom"]
    (by intro w hw; simpa using hw)
    ⟨.error "boom", by simp, "boom", rfl⟩

/-- Helper: for a bit index between 0 and 7, the source bit test
`(readInt8 >> index) & 1` agrees with `Nat.testBit` of the unsigned byte
(the sign of the byte read only affects bits past the seventh). -/
theorem parseBool_testBit (b : Buffer) (off k : Nat) (hk : k ≤ 7) :
    parseBooleanFromBuffer b off (k : Int) = Nat.testBit (readUInt8 b off) k := by
  unfold parseBooleanFromBuffer readUInt8
  dsimp only
  rw [show Int.tmod (k : Int) 8 = (k : Int) from Int.tmod_eq_of_lt (by omega) (by omega)]
  rw [if_neg (by omega : ¬ (k : Int) > 7)]
  rw [show Int.emod (k : Int) 32 = (k : Int) from Int.emod_eq_of_lt (by omega) (by omega)]
  rw [Int.toNat_ofNat]
  rw [Nat.testBit_to_div_mod, decide_eq_decide]
  have hread : readIntN b (off + 0) 1 =
      if b.getD off 0 < 128 then (b.getD off 0 : Int) else (b.getD off 0 : Int) - 256 := by
    unfold readIntN
    simp [readUIntN]
  rw [hread, Int.fdiv_eq_ediv _ (by positivity)]
  rw [show (∀ a : Int, Int.emod a 2 = a % 2) from fun _ => rfl]
  have hcast : ((2 : Int)) ^ k = ((2 ^ k : Nat) : Int) := by push_cast; ring
  by_cases hu : b.getD off 0 < 128
  · rw [if_pos hu, hcast, ← Int.ofNat_ediv]
    omega
  · rw [if_neg hu]
    have h256 : ((b.getD off 0 : Int)) - 256
        = (b.getD off 0 : Int) + -((2 : Int) ^ (8 - k)) * 2 ^ k := by
      have hp : ((2 : Int)) ^ (8 - k) * 2 ^ k = 256 := by
        rw [← pow_add, show 8 - k + k = 8 from by omega]
        norm_num
      linarith
    rw [h256, Int.add_mul_ediv_right _ _ (by positivity : (2:Int)^k ≠ 0)]
    have hsplit : ((2 : Int)) ^ (8 - k) = 2 * 2 ^ (7 - k) := by
      rw [← pow_succ']
      congr 1
      omega
    rw [hcast, ← Int.ofNat_ediv, hsplit]
    omega

/-- C8: decoding a single IEC_TIMER item named `T` from its 16-byte region
yields exactly the six flattened entries `T.start`, `T.PT`, `T.ET`, `T.IN`,
`T.Q`, `T.end` (the parent entry itself is dropped), with `IN` read from
bit 0 and `Q` from bit 1 of the byte at sub-offset 12. -/
theorem C8_iec_timer_flatten (buf : Buffer) :
    DBStructure_parse c8db buf =
      [⟨"T.start", .UDINT, .num (readUIntN buf 0 4)⟩,
       ⟨"T.PT", .TIME, .num (readUIntN buf 4 4)⟩,
       ⟨"T.ET", .TIME, .num (readUIntN buf 8 4)⟩,
       ⟨"T.IN", .BOOL, .bool (Nat.testBit (readUInt8 buf 12) 0)⟩,
       ⟨"T.Q", .BOOL, .bool (Nat.testBit (readUInt8 buf 12) 1)⟩,
       ⟨"T.end", .UINT, .num (readUIntN buf 14 2)⟩] := by
  have h0 := parseBool_testBit buf 12 0 (by omega)
  have h1 := parseBool_testBit buf 12 1 (by omega)
  simp only [Nat.cast_zero] at h0
  simp only [Nat.cast_one] at h1
  simp [DBStructure_parse, parseItems, c8db, parseValueFromBuffer, parseIECTimerFromBuffer,
    parseTimeFromBuffer, typeIsObject, isBoolean, isString, sizeGT1, variableTypeSize,
    jsOrNat, roundUpToEven, coerceNum, typeIsNumber, isArr, jsArrElems, childData, h0, h1]

/-- Helper: a normalised array count is at least 1. -/
theorem normSize_pos (o : Option Nat) : 1 ≤ normSize o := by
  cases o with
  | none => simp [normSize]
  | some k => simp only [normSize]; split <;> omega

/-- Helper: over boolean-free and string-free items the running layout total
grows by at least each item's width times its count. -/
theorem calcItems_lower (items : List S7DBStructureItem) (start : Nat) :
    ∀ total bits, (∀ it ∈ items, isBoolean it.type = false ∧ isString it.type = false) →
    total + minStrideSum items ≤ (calcItems items start total bits).1 := by
  induction items with
  | nil =>
    intro total bits _
    simp [calcItems, minStrideSum]
  | cons it rest ih =>
    intro total bits h
    obtain ⟨hb, hs⟩ := h it (List.mem_cons_self it rest)
    have hrest := fun x hx => h x (List.mem_cons_of_mem it hx)
    have hsz := normSize_pos it.size
    simp only [calcItems, hb, hs, minStrideSum, List.map_cons, List.sum_cons]
    simp only [Bool.false_eq_true, and_false, and_true, if_false, ite_false, if_true,
      eq_self_iff_true, roundUpToEven]
    have hms : (List.map (fun it => variableTypeSize it.type * normSize it.size) rest).sum
        = minStrideSum rest := rfl
    rw [hms]
    split_ifs with h1 h2 h3 h4 h5 <;>
      first
      | (refine le_trans ?_ (ih _ _ hrest)
         omega)
      | (have hone : normSize it.size = 1 := by omega
         rw [hone, Nat.mul_one] at *
         refine le_trans ?_ (ih _ _ hrest)
         omega)

/-- C2 counterexample: for three single-bit BOOL items the layout total is
2 bytes, strictly below the claimed lower bound of 3 (the sum of type width
times count) — packed booleans occupy fewer bytes than their count. -/
theorem C2_counterexample :
    (DBStructure_calculateSize c2items 0).1 = 2 ∧
    (DBStructure_calculateSize c2items 0).1 < minStrideSum c2items := by
  constructor
  · rfl
  · decide

/-- C2 (amended): the total returned by the layout calculator is always
even; and for item sequences with no BOOL/BIT and no STRING items it is at
least the sum of the items' minimal strides (type width times normalised
array count).  Bit-packed booleans and capacity-sized strings may occupy
less than width times count. -/
theorem C2_layout_size (items : List S7DBStructureItem) (start : Nat) :
    (DBStructure_calculateSize items start).1 % 2 = 0 ∧
    ((∀ it ∈ items, isBoolean it.type = false ∧ isString it.type = false) →
      minStrideSum items ≤ (DBStructure_calculateSize items start).1) := by
  constructor
  · unfold DBStructure_calculateSize
    dsimp only
    simp only [roundUpToEven]
    omega
  · intro h
    have hlow := calcItems_lower items start 0 0 h
    unfold DBStructure_calculateSize
    dsimp only
    simp only [roundUpToEven]
    split <;> omega

/-- Witness for C2 (amended) at a concrete boolean-free item sequence. -/
theorem C2_layout_size_witness :
    (DBStructure_calculateSize c2wItems 0).1 % 2 = 0 ∧
    minStrideSum c2wItems ≤ (DBStructure_calculateSize c2wItems 0).1 :=
  ⟨(C2_layout_size c2wItems 0).1, (C2_layout_size c2wItems 0).2 (by decide)⟩

/-- C9 counterexample: the layout calculator mutates its input — on a bare
UINT item it writes the `size` normalisation and the `offset` annotation
into the item, so the returned items differ from the caller's. -/
theorem C9_counterexample :
    (DBStructure_calculateSize [c9item] 0).2 ≠ [c9item] := by
  intro h
  have h0 : (DBStructure_calculateSize [c9item] 0).2
      = [⟨"x", .UINT, some 1, none, .undef, some (offsetAnnot 0 0)⟩] := rfl
  rw [h0] at h
  injection h with h1 h2
  simpa [c9item] using congrArg S7DBStructureItem.offset h1

/-- Helper: the running layout state is independent of the starting offset
(which feeds only the per-item annotation). -/
theorem calcItems_start_indep (items : List S7DBStructureItem) (s1 s2 : Nat) :
    ∀ total bits, (calcItems items s1 total bits).1 = (calcItems items s2 total bits).1 ∧
      (calcItems items s1 total bits).2.1 = (calcItems items s2 total bits).2.1 := by
  induction items with
  | nil => intro total bits; exact ⟨rfl, rfl⟩
  | cons it rest ih =>
    intro total bits
    simp only [calcItems]
    exact ih _ _

/-- Helper: the layout pass never touches an item's name, type or value. -/
theorem calcItems_preserves (items : List S7DBStructureItem) (start : Nat) :
    ∀ total bits, ((calcItems items start total bits).2.2).map
        (fun it => (it.name, it.type, it.value))
      = items.map (fun it => (it.name, it.type, it.value)) := by
  induction items with
  | nil => intro total bits; rfl
  | cons it rest ih =>
    intro total bits
    simp only [calcItems, List.map_cons]
    rw [ih _ _]

/-- C9 (amended): the layout calculator's returned total is a function of
the item sequence alone (independent of the starting offset), and the
in-place annotation it performs never modifies an item's name, type or
value — only `size`, `strlen` and `offset` are written. -/
theorem C9_layout_calculator_effects (items : List S7DBStructureItem) (start : Nat) :
    (DBStructure_calculateSize items start).1 = (DBStructure_calculateSize items 0).1 ∧
    ((DBStructure_calculateSize items start).2).map (fun it => (it.name, it.type, it.value))
      = items.map (fun it => (it.name, it.type, it.value)) := by
  constructor
  · unfold DBStructure_calculateSize
    dsimp only
    obtain ⟨h1, h2⟩ := calcItems_start_indep items start 0 0 0
    rw [h1, h2]
  · unfold DBStructure_calculateSize
    dsimp only
    exact calcItems_preserves items start 0 0

/-- C1 counterexample: a single BIT item carrying the well-typed value
`true` decodes to `false` after encoding — the encoder's switch has no BIT
case, so the bit is written through the default 2-byte word branch while the
decoder performs a bit test. -/
theorem C1_counterexample :
    DBStructure_parse (normalizeDB c1bitdb) (DBStructure_encode c1bitdb)
      = [⟨"b", .BIT, .bool false⟩] ∧
    c1bitdb.items.map expectedData = [⟨"b", .BIT, .bool true⟩] := ⟨rfl, rfl⟩

/-- Helper: validation passes over well-formed named variables. -/
theorem validateVarsRead_none (vars : List PLCArg) :
    ∀ i len, (∀ v ∈ vars, ∃ nm val, v = PLCArg.obj (some nm) (some val) ∧ nm ≠ "") →
    validateVarsRead vars i len = none := by
  induction vars with
  | nil => intro i len _; rfl
  | cons v rest ih =>
    intro i len h
    obtain ⟨nm, val, rfl, hne⟩ := h v (List.mem_cons_self v rest)
    simp only [validateVarsRead, if_neg hne]
    exact ih _ _ (fun x hx => h x (List.mem_cons_of_mem _ hx))

/-- Helper: write validation passes over well-formed named-and-valued
variables. -/
theorem validateVarsWrite_none (vars : List PLCArg) :
    ∀ i len, (∀ v ∈ vars, ∃ nm val, v = PLCArg.obj (some nm) (some val) ∧ nm ≠ "") →
    validateVarsWrite vars i len = none := by
  induction vars with
  | nil => intro i len _; rfl
  | cons v rest ih =>
    intro i len h
    obtain ⟨nm, val, rfl, hne⟩ := h v (List.mem_cons_self v rest)
    simp only [validateVarsWrite, if_neg hne]
    exact ih _ _ (fun x hx => h x (List.mem_cons_of_mem _ hx))

/-- Helper: a name matching no declared item finds no owner. -/
theorem findOwner_none (datablocks : List S7DBStructure) (nm : String)
    (h : ∀ db ∈ datablocks, ∀ it ∈ db.items, it.name ≠ nm) :
    findOwner datablocks nm = none := by
  induction datablocks with
  | nil => rfl
  | cons db rest ih =>
    have hfind : db.items.find? (fun it => it.name == nm) = none := by
      rw [List.find?_eq_none]
      intro it hit
      simpa using h db (List.mem_cons_self db rest) it hit
    simp only [findOwner, hfind]
    exact ih (fun d hd => h d (List.mem_cons_of_mem db hd))

/-- C10: a router `read` or `write` call whose variables are all well-formed
objects carrying names (and values, for write) that match no declared item
of any datablock returns `undefined` — not an error value — and dispatches
nothing to the network. -/
theorem C10_unmatched_names_silent (datablocks : List S7DBStructure) (vars : List PLCArg)
    (hne : vars ≠ [])
    (hwf : ∀ v ∈ vars, ∃ nm val, v = PLCArg.obj (some nm) (some val) ∧ nm ≠ "")
    (hnm : ∀ v ∈ vars, ∀ db ∈ datablocks, ∀ it ∈ db.items, plcArgName v ≠ some it.name) :
    PLC_read datablocks vars = .undef ∧ PLC_write datablocks vars = .undef := by
  have hlen : ¬ vars.length = 0 := by
    simpa [List.length_eq_zero] using hne
  have hown : ∀ v ∈ vars, ∀ nm, plcArgName v = some nm →
      findOwner datablocks nm = none := by
    intro v hv nm hvn
    apply findOwner_none
    intro db hdb it hit
    intro heq
    exact hnm v hv db hdb it hit (by rw [hvn, heq])
  constructor
  · unfold PLC_read
    rw [if_neg hlen, validateVarsRead_none vars 0 vars.length hwf]
    have hreqs : (vars.filterMap (fun v =>
        match plcArgName v with
        | some nm => (findOwner datablocks nm).map (fun p => mkReadRequest p.1 p.2)
        | none => none)) = [] := by
      rw [List.filterMap_eq_nil_iff]
      intro v hv
      obtain ⟨nm, val, rfl, hne2⟩ := hwf v hv
      have := hown _ hv nm rfl
      simp [plcArgName, this]
    simp [hreqs]
  · unfold PLC_write
    rw [if_neg hlen, validateVarsWrite_none vars 0 vars.length hwf]
    have hreqs : (vars.filterMap (fun v =>
        match plcArgName v, plcArgValue v with
        | some nm, some val =>
          (findOwner datablocks nm).map (fun p => mkWriteRequest p.1 p.2 val)
        | _, _ => none)) = [] := by
      rw [List.filterMap_eq_nil_iff]
      intro v hv
      obtain ⟨nm, val, rfl, hne2⟩ := hwf v hv
      have := hown _ hv nm rfl
      simp [plcArgName, plcArgValue, this]
    simp [hreqs]

/-- Witness for C10 at one declared datablock and one unmatched name. -/
theorem C10_unmatched_names_silent_witness :
    PLC_read c10dbs c10vars = .undef ∧ PLC_write c10dbs c10vars = .undef :=
  C10_unmatched_names_silent c10dbs c10vars (by simp [c10vars])
    (by
      intro v hv
      simp only [c10vars, List.mem_singleton] at hv
      subst hv
      exact ⟨"zz", .num 1, rfl, by decide⟩)
    (by
      intro v hv db hdb it hit
      simp only [c10vars, List.mem_singleton] at hv
      subst hv
      simp only [c10dbs, List.mem_singleton] at hdb
      subst hdb
      simp only [List.mem_singleton] at hit
      subst hit
      simp [plcArgName])

theorem kind_facts (t : DataType) (kind : ScalarKind) (h : scalarKind? t = some kind) :
    variableTypeSize t = kindBytes kind ∧ isBoolean t = decide (kind = .bl) ∧
    isString t = false ∧ typeIsObject t = false ∧ typeIsNumber t = kindIsNum kind := by
  cases t <;> simp only [scalarKind?, Option.some.injEq, reduceCtorEq] at h <;>
    first
    | exact absurd h (by simp)
    | (subst h; refine ⟨rfl, by decide, rfl, rfl, rfl⟩)

theorem getD_set_self (l : List Nat) (i : Nat) (v : Nat) (h : i < l.length) :
    (l.set i v).getD i 0 = v := by
  simp [List.getD, List.getElem?_set_self h]

theorem getD_set_ne (l : List Nat) (i j : Nat) (v : Nat) (h : i ≠ j) :
    (l.set i v).getD j 0 = l.getD j 0 := by
  simp [List.getD, List.getElem?_set_ne h]

theorem writeUIntNAux_length (b : Buffer) (off : Nat) :
    ∀ n v, (writeUIntNAux b off n v).length = b.length := by
  intro n
  induction n generalizing b with
  | zero => intro v; rfl
  | succ n ih =>
    intro v
    simp only [writeUIntNAux]
    rw [ih]
    simp

theorem writeUIntNAux_getD_out (b : Buffer) (off : Nat) :
    ∀ n v p, (p < off ∨ off + n ≤ p) →
      (writeUIntNAux b off n v).getD p 0 = b.getD p 0 := by
  intro n
  induction n generalizing b with
  | zero => intro v p _; rfl
  | succ n ih =>
    intro v p hp
    simp only [writeUIntNAux]
    rw [ih _ _ _ (by omega), getD_set_ne _ _ _ _ (by omega)]

theorem writeUIntNAux_WF (b : Buffer) (off : Nat) (hWF : WFBuf b) :
    ∀ n v, WFBuf (writeUIntNAux b off n v) := by
  intro n
  induction n generalizing b with
  | zero => intro v; exact hWF
  | succ n ih =>
    intro v
    simp only [writeUIntNAux]
    apply ih
    intro p
    by_cases hp : p = off + n
    · subst hp
      by_cases hlt : off + n < b.length
      · rw [getD_set_self _ _ _ hlt]; omega
      · rw [List.set_eq_of_length_le (by omega)]
        exact hWF _
    · rw [getD_set_ne _ _ _ _ (fun hq => hp hq.symm)]
      exact hWF p

theorem readUIntN_congr (b b2 : Buffer) (off : Nat) :
    ∀ n, (∀ i, i < n → b2.getD (off + i) 0 = b.getD (off + i) 0) →
      readUIntN b2 off n = readUIntN b off n := by
  intro n
  induction n with
  | zero => intro _; rfl
  | succ n ih =>
    intro h
    simp only [readUIntN]
    rw [ih (fun i hi => h i (by omega)), h n (by omega)]

theorem readUIntN_writeUIntNAux (b : Buffer) (off : Nat) :
    ∀ n v, off + n ≤ b.length → v < 2 ^ (8 * n) →
      readUIntN (writeUIntNAux b off n v) off n = v := by
  intro n
  induction n generalizing b with
  | zero =>
    intro v _ hv
    simp only [readUIntN]
    omega
  | succ n ih =>
    intro v hlen hv
    simp only [writeUIntNAux, readUIntN]
    rw [writeUIntNAux_getD_out _ _ _ _ _ (by omega)]
    rw [getD_set_self _ _ _ (by simpa using (by omega : off + n < b.length))]
    rw [ih _ _ (by simpa using (by omega : off + n ≤ b.length)) (by
      have h2 : (2:Nat) ^ (8 * (n+1)) = 2 ^ (8 * n) * 256 := by
        rw [show 8 * (n+1) = 8 * n + 8 from by ring, pow_add]
        norm_num
      rw [h2] at hv
      exact Nat.div_lt_of_lt_mul (by omega))]
    have h2 : (2:Nat) ^ (8 * (n+1)) = 2 ^ (8 * n) * 256 := by
      rw [show 8 * (n+1) = 8 * n + 8 from by ring, pow_add]
      norm_num
    omega

theorem writeUIntN_length (b : Buffer) (off n : Nat) (v : Option Int) :
    (writeUIntN b off n v).length = b.length := by
  unfold writeUIntN
  cases v with
  | none => rfl
  | some v =>
    dsimp only
    split
    · exact writeUIntNAux_length _ _ _ _
    · rfl

theorem writeIntN_length (b : Buffer) (off n : Nat) (v : Option Int) :
    (writeIntN b off n v).length = b.length := by
  unfold writeIntN
  cases v with
  | none => rfl
  | some v =>
    dsimp only
    split
    · exact writeUIntNAux_length _ _ _ _
    · rfl

theorem writeUIntN_getD_out (b : Buffer) (off n : Nat) (v : Option Int) (p : Nat)
    (hp : p < off ∨ off + n ≤ p) :
    (writeUIntN b off n v).getD p 0 = b.getD p 0 := by
  unfold writeUIntN
  cases v with
  | none => rfl
  | some v =>
    dsimp only
    split
    · exact writeUIntNAux_getD_out _ _ _ _ _ hp
    · rfl

theorem writeIntN_getD_out (b : Buffer) (off n : Nat) (v : Option Int) (p : Nat)
    (hp : p < off ∨ off + n ≤ p) :
    (writeIntN b off n v).getD p 0 = b.getD p 0 := by
  unfold writeIntN
  cases v with
  | none => rfl
  | some v =>
    dsimp only
    split
    · exact writeUIntNAux_getD_out _ _ _ _ _ hp
    · rfl

theorem writeUIntN_WF (b : Buffer) (off n : Nat) (v : Option Int) (hWF : WFBuf b) :
    WFBuf (writeUIntN b off n v) := by
  unfold writeUIntN
  cases v with
  | none => exact hWF
  | some v =>
    dsimp only
    split
    · exact writeUIntNAux_WF _ _ hWF _ _
    · exact hWF

theorem writeIntN_WF (b : Buffer) (off n : Nat) (v : Option Int) (hWF : WFBuf b) :
    WFBuf (writeIntN b off n v) := by
  unfold writeIntN
  cases v with
  | none => exact hWF
  | some v =>
    dsimp only
    split
    · exact writeUIntNAux_WF _ _ hWF _ _
    · exact hWF

theorem pow_int_nat (m : Nat) : ((2 : Int)) ^ m = ((2 ^ m : Nat) : Int) := by
  push_cast
  ring

theorem readUIntN_writeUIntN (b : Buffer) (off n : Nat) (v : Int)
    (h0 : 0 ≤ v) (h1 : v < (2 : Int) ^ (8 * n)) (h2 : off + n ≤ b.length) :
    readUIntN (writeUIntN b off n (some v)) off n = v.toNat := by
  unfold writeUIntN
  dsimp only
  rw [if_pos ⟨h0, h1, h2⟩]
  apply readUIntN_writeUIntNAux _ _ _ _ h2
  rw [pow_int_nat] at h1
  omega

theorem readIntN_writeIntN (b : Buffer) (off n : Nat) (v : Int) (hn : 1 ≤ n)
    (hlo : -((2 : Int) ^ (8 * n - 1)) ≤ v) (hhi : v < (2 : Int) ^ (8 * n - 1))
    (h2 : off + n ≤ b.length) :
    readIntN (writeIntN b off n (some v)) off n = v := by
  have hnm : 8 * n = (8 * n - 1) + 1 := by omega
  set P : Nat := 2 ^ (8 * n - 1) with hP
  set Q : Nat := 2 ^ (8 * n) with hQ
  have hPQ : Q = P * 2 := by
    rw [hP, hQ, hnm]
    exact pow_succ 2 _
  have hiP : ((P : Nat) : Int) = (2 : Int) ^ (8 * n - 1) := by rw [hP]; push_cast; ring
  have hiQ : ((Q : Nat) : Int) = (2 : Int) ^ (8 * n) := by rw [hQ]; push_cast; ring
  rw [← hiP] at hlo hhi
  unfold writeIntN
  dsimp only
  rw [if_pos ⟨by rw [← hiP]; omega, by rw [← hiP]; omega, h2⟩]
  unfold readIntN
  dsimp only
  by_cases hv : 0 ≤ v
  · have hemod : v.emod ((2 : Int) ^ (8 * n)) = v :=
      Int.emod_eq_of_lt hv (by rw [← hiQ]; omega)
    rw [hemod]
    rw [readUIntN_writeUIntNAux _ _ _ _ h2 (by omega)]
    rw [if_pos (by omega)]
    omega
  · have h1e : v.emod ((2 : Int) ^ (8 * n)) = (v + (2 : Int) ^ (8 * n)).emod ((2 : Int) ^ (8 * n)) := by
      have hm := @Int.add_mul_emod_self_left v ((2 : Int) ^ (8 * n)) 1
      rw [mul_one] at hm
      exact hm.symm
    have h2e : (v + (2 : Int) ^ (8 * n)).emod ((2 : Int) ^ (8 * n)) = v + (2 : Int) ^ (8 * n) :=
      Int.emod_eq_of_lt (by rw [← hiQ]; omega) (by rw [← hiQ]; omega)
    rw [h1e, h2e]
    rw [readUIntN_writeUIntNAux _ _ _ _ h2 (by rw [← hiQ]; omega)]
    rw [if_neg (by rw [← hiQ]; omega)]
    rw [← hiQ]
    omega

theorem alloc_length (n : Nat) : (Buffer.alloc n).length = n := List.length_replicate n 0

theorem alloc_getD (n p : Nat) : (Buffer.alloc n).getD p 0 = 0 := by
  unfold Buffer.alloc
  rw [List.getD_eq_getElem?_getD, List.getElem?_replicate]
  split <;> rfl

theorem alloc_WF (n : Nat) : WFBuf (Buffer.alloc n) := by
  intro p
  rw [alloc_getD]
  omega

theorem agreeBelow_refl (b : Buffer) (off bits : Nat) : agreeBelow b b off bits :=
  ⟨fun _ _ => rfl, fun _ _ => rfl⟩

theorem agreeBelow_trans_mono (b b1 b2 : Buffer) (off bits o2 t2 : Nat)
    (h1 : agreeBelow b b1 off bits) (h2 : agreeBelow b1 b2 o2 t2)
    (hmono : posOf off bits ≤ posOf o2 t2) (hb : bits ≤ 7) (ht : t2 ≤ 7) :
    agreeBelow b b2 off bits := by
  obtain ⟨h1b, h1t⟩ := h1
  obtain ⟨h2b, h2t⟩ := h2
  have hoff : off ≤ o2 := by
    unfold posOf at hmono
    omega
  constructor
  · intro p hp
    have hpo : p < o2 := by omega
    rw [h2b p hpo, h1b p hp]
  · intro j hj
    by_cases hcase : off < o2
    · rw [h2b off hcase, h1t j hj]
    · have heq : off = o2 := by omega
      subst heq
      have hbt : bits ≤ t2 := by
        unfold posOf at hmono
        omega
      rw [h2t j (by omega), h1t j hj]

theorem readUIntN_of_agree (b1 b2 : Buffer) (o2 t2 off n : Nat)
    (h : agreeBelow b1 b2 o2 t2) (hle : off + n ≤ o2) :
    readUIntN b2 off n = readUIntN b1 off n :=
  readUIntN_congr b1 b2 off n (fun i hi => h.1 (off + i) (by omega))

theorem testBit_of_agree (b1 b2 : Buffer) (o2 t2 p j : Nat)
    (h : agreeBelow b1 b2 o2 t2) (hpos : posOf p (j + 1) ≤ posOf o2 t2) (ht2 : t2 ≤ 7) :
    Nat.testBit (b2.getD p 0) j = Nat.testBit (b1.getD p 0) j := by
  by_cases hp : p < o2
  · rw [h.1 p hp]
  · have hpe : p = o2 ∧ j < t2 := by
      unfold posOf at hpos
      omega
    obtain ⟨rfl, hjt⟩ := hpe
    exact h.2 j hjt

theorem encodeBoolean_spec (value : Bool) (b : Buffer) (off j : Nat)
    (hj : j ≤ 7) (hWF : WFBuf b) (hoff : off < b.length) :
    encodeBooleanToBuffer value b off (j : Int)
      = b.set off (if value then b.getD off 0 ||| 2 ^ j
          else b.getD off 0 &&& (0xFFFFFFFF ^^^ 2 ^ j)) := by
  have hbyte : b.getD off 0 < 256 := hWF off
  have hone : (1 : Nat) <<< j = 2 ^ j := by
    rw [Nat.shiftLeft_eq, Nat.one_mul]
  have h2j : (2 : Nat) ^ j < 2 ^ 8 := Nat.pow_lt_pow_right (by omega) (by omega)
  have hlt : (if value then b.getD off 0 ||| 2 ^ j
      else b.getD off 0 &&& (0xFFFFFFFF ^^^ 2 ^ j)) < 256 := by
    have hor := Nat.or_lt_two_pow (show b.getD off 0 < 2 ^ 8 by omega) h2j
    have hand := @Nat.and_le_left (b.getD off 0) (0xFFFFFFFF ^^^ 2 ^ j)
    split <;> omega
  unfold encodeBooleanToBuffer writeUIntN readUInt8
  dsimp only
  rw [show Int.emod (j : Int) 32 = (j : Int) from Int.emod_eq_of_lt (by omega) (by omega)]
  rw [Int.toNat_ofNat, hone]
  rw [if_pos ⟨by omega, by
    rw [show ((2 : Int) ^ (8 * 1)) = 256 from by norm_num]
    exact_mod_cast hlt, by omega⟩]
  simp only [writeUIntNAux, Int.toNat_ofNat, Nat.add_zero]
  rw [Nat.mod_eq_of_lt hlt]

theorem kindBytes_pos (t : DataType) (kind : ScalarKind)
    (h : scalarKind? t = some kind) : 1 ≤ kindBytes kind := by
  cases t <;> simp only [scalarKind?, Option.some.injEq, reduceCtorEq] at h <;>
    first
    | exact absurd h (by simp)
    | (subst h; decide)

theorem testBit_set_bool (value : Bool) (byte j i : Nat) (hi : i < 32) :
    Nat.testBit (if value then byte ||| 2 ^ j else byte &&& (0xFFFFFFFF ^^^ 2 ^ j)) i
      = if i = j then value else Nat.testBit byte i := by
  have hmask : Nat.testBit 0xFFFFFFFF i = true := by
    rw [show (0xFFFFFFFF : Nat) = 2 ^ 32 - 1 from by norm_num,
      Nat.testBit_two_pow_sub_one]
    simp [hi]
  cases value with
  | true =>
    rw [if_pos rfl]
    by_cases hij : i = j
    · subst hij
      rw [if_pos rfl]
      simp [Nat.testBit_or, Nat.testBit_two_pow]
    · rw [if_neg hij]
      simp [Nat.testBit_or, Nat.testBit_two_pow, Ne.symm hij]
  | false =>
    rw [if_neg (by simp)]
    by_cases hij : i = j
    · subst hij
      rw [if_pos rfl]
      simp [Nat.testBit_and, Nat.testBit_xor, Nat.testBit_two_pow, hmask]
    · rw [if_neg hij]
      simp [Nat.testBit_and, Nat.testBit_xor, Nat.testBit_two_pow, hmask, Ne.symm hij]

theorem coerceNum_num (t : DataType) (v : Int) (h : typeIsNumber t = true) :
    coerceNum t (.num v) = .num v := by
  simp [coerceNum, h, jsFiniteNum]

theorem coerceNum_nonnum (t : DataType) (v : S7Val) (h : typeIsNumber t = false) :
    coerceNum t v = v := by
  simp [coerceNum, h]

theorem encodeValue_uns (t : DataType) (n : Nat) (h : scalarKind? t = some (.uns n))
    (v : Int) (b : Buffer) (off : Nat) (i : Int) (ts : Nat) :
    encodeValueToBuffer b (.num v) t off i ts = writeUIntN b off n (some v) := by
  cases t <;>
    simp_all [scalarKind?, encodeValueToBuffer, jsFiniteNum, encodeTimeToBuffer]

theorem encodeValue_sgn (t : DataType) (n : Nat) (h : scalarKind? t = some (.sgn n))
    (v : Int) (b : Buffer) (off : Nat) (i : Int) (ts : Nat) :
    encodeValueToBuffer b (.num v) t off i ts = writeIntN b off n (some v) := by
  cases t <;>
    simp_all [scalarKind?, encodeValueToBuffer, jsFiniteNum, encodeTimeToBuffer]

theorem encodeValue_chr (t : DataType) (h : scalarKind? t = some .chr)
    (c : Nat) (b : Buffer) (off : Nat) (i : Int) (ts : Nat) :
    encodeValueToBuffer b (.str [c]) t off i ts = writeUIntN b off 1 (some (c : Int)) := by
  cases t <;>
    simp_all [scalarKind?, encodeValueToBuffer, jsToStr, encodeCharacterToBuffer]

theorem scalarKind_bl (t : DataType) (h : scalarKind? t = some .bl) : t = .BOOL := by
  cases t <;> simp_all [scalarKind?]

theorem parseValue_uns (t : DataType) (n : Nat) (h : scalarKind? t = some (.uns n))
    (b : Buffer) (off : Nat) (i : Int) (ts : Nat) :
    parseValueFromBuffer b t off i ts = .num (readUIntN b off n) := by
  cases t <;>
    simp_all [scalarKind?, parseValueFromBuffer, parseTimeFromBuffer]

theorem parseValue_sgn (t : DataType) (n : Nat) (h : scalarKind? t = some (.sgn n))
    (b : Buffer) (off : Nat) (i : Int) (ts : Nat) :
    parseValueFromBuffer b t off i ts = .num (readIntN b off n) := by
  cases t <;>
    simp_all [scalarKind?, parseValueFromBuffer]

theorem parseValue_chr (t : DataType) (h : scalarKind? t = some .chr)
    (b : Buffer) (off : Nat) (i : Int) (ts : Nat) :
    parseValueFromBuffer b t off i ts = .str [readUInt8 b off] := by
  cases t <;>
    simp_all [scalarKind?, parseValueFromBuffer, parseCharacterFromBuffer]

theorem coerceNum_WT (t : DataType) (kind : ScalarKind) (hsk : scalarKind? t = some kind)
    (v : S7Val) (hWT : kindWT kind v) : coerceNum t v = v := by
  have hnum := (kind_facts t kind hsk).2.2.2.2
  cases kind with
  | uns n =>
    cases v <;> simp [kindWT] at hWT
    exact coerceNum_num t _ (by rw [hnum]; rfl)
  | sgn n =>
    cases v <;> simp [kindWT] at hWT
    exact coerceNum_num t _ (by rw [hnum]; rfl)
  | chr =>
    exact coerceNum_nonnum t v (by rw [hnum]; rfl)
  | bl =>
    exact coerceNum_nonnum t v (by rw [hnum]; rfl)

theorem encodeValue_facts (t : DataType) (kind : ScalarKind)
    (hsk : scalarKind? t = some kind) (hnb : kind ≠ .bl)
    (v : S7Val) (hWT : kindWT kind v)
    (b : Buffer) (off : Nat) (i : Int) (ts : Nat) (hWF : WFBuf b) :
    (encodeValueToBuffer b (coerceNum t v) t off i ts).length = b.length ∧
    WFBuf (encodeValueToBuffer b (coerceNum t v) t off i ts) ∧
    (∀ p, p < off ∨ off + kindBytes kind ≤ p →
      (encodeValueToBuffer b (coerceNum t v) t off i ts).getD p 0 = b.getD p 0) := by
  rw [coerceNum_WT t kind hsk v hWT]
  cases kind with
  | uns n =>
    cases v <;> simp only [kindWT] at hWT
    rw [encodeValue_uns t n hsk]
    exact ⟨writeUIntN_length _ _ _ _, writeUIntN_WF _ _ _ _ hWF,
      fun p hp => writeUIntN_getD_out _ _ _ _ _ hp⟩
  | sgn n =>
    cases v <;> simp only [kindWT] at hWT
    rw [encodeValue_sgn t n hsk]
    exact ⟨writeIntN_length _ _ _ _, writeIntN_WF _ _ _ _ hWF,
      fun p hp => writeIntN_getD_out _ _ _ _ _ hp⟩
  | chr =>
    cases v <;> simp only [kindWT] at hWT
    obtain ⟨c, rfl, hc⟩ := hWT
    rw [encodeValue_chr t hsk]
    exact ⟨writeUIntN_length _ _ _ _, writeUIntN_WF _ _ _ _ hWF,
      fun p hp => writeUIntN_getD_out _ _ _ _ _ hp⟩
  | bl => exact absurd rfl hnb

theorem encodeValue_readback (t : DataType) (kind : ScalarKind)
    (hsk : scalarKind? t = some kind) (hnb : kind ≠ .bl)
    (v : S7Val) (hWT : kindWT kind v)
    (b : Buffer) (off : Nat) (i : Int) (ts : Nat) (hWF : WFBuf b)
    (hlen : off + kindBytes kind ≤ b.length)
    (b2 : Buffer)
    (hagree : ∀ q, q < off + kindBytes kind →
      b2.getD q 0 = (encodeValueToBuffer b (coerceNum t v) t off i ts).getD q 0)
    (i2 : Int) (ts2 : Nat) :
    parseValueFromBuffer b2 t off i2 ts2 = v := by
  rw [coerceNum_WT t kind hsk v hWT] at hagree
  cases kind with
  | uns n =>
    cases v <;> simp only [kindWT] at hWT
    case num val =>
      obtain ⟨h0, h1⟩ := hWT
      rw [parseValue_uns t n hsk]
      rw [encodeValue_uns t n hsk] at hagree
      have hrd : readUIntN b2 off n = readUIntN (writeUIntN b off n (some val)) off n :=
        readUIntN_congr _ _ _ _ (fun q hq => hagree (off + q) (by
          simp only [kindBytes] at hlen ⊢
          omega))
      rw [hrd, readUIntN_writeUIntN b off n val h0 (by simpa [kindBytes] using h1) hlen]
      simp only [S7Val.num.injEq]
      omega
  | sgn n =>
    cases v <;> simp only [kindWT] at hWT
    case num val =>
      obtain ⟨h0, h1⟩ := hWT
      rw [parseValue_sgn t n hsk]
      rw [encodeValue_sgn t n hsk] at hagree
      have hn1 : 1 ≤ n := by
        have := kindBytes_pos t _ hsk
        simpa [kindBytes] using this
      have hread2 : readIntN b2 off n = readIntN (writeIntN b off n (some val)) off n := by
        unfold readIntN
        rw [readUIntN_congr _ _ _ _ (fun q hq => hagree (off + q) (by
          simp only [kindBytes] at hlen ⊢
          omega))]
      rw [hread2, readIntN_writeIntN b off n val hn1 h0 h1 hlen]
  | chr =>
    cases v <;> simp only [kindWT] at hWT
    case str s =>
      obtain ⟨c, rfl, hc⟩ := hWT
      rw [parseValue_chr t hsk]
      rw [encodeValue_chr t hsk] at hagree
      have hrd : readUIntN b2 off 1 = readUIntN (writeUIntN b off 1 (some (c : Int))) off 1 :=
        readUIntN_congr _ _ _ _ (fun q hq => hagree (off + q) (by
          simp only [kindBytes] at hlen ⊢
          omega))
      have hr8 : readUInt8 b2 off = readUIntN b2 off 1 := by
        simp [readUInt8, readUIntN]
      rw [hr8, hrd, readUIntN_writeUIntN b off 1 c (by omega) (by push_cast; omega)
        (by simpa [kindBytes] using hlen)]
      simp
  | bl => exact absurd rfl hnb

theorem encodeArray_facts (t : DataType) (kind : ScalarKind)
    (hsk : scalarKind? t = some kind) (hnb : kind ≠ .bl) :
    ∀ (l : List S7Val) (buf : Buffer) (off bits : Nat),
      (∀ v ∈ l, kindWT kind v) → WFBuf buf →
      (encodeArrayLoop t (kindBytes kind) l.length l buf off bits).2.1
          = off + l.length * kindBytes kind ∧
      (encodeArrayLoop t (kindBytes kind) l.length l buf off bits).2.2 = bits ∧
      (encodeArrayLoop t (kindBytes kind) l.length l buf off bits).1.length = buf.length ∧
      WFBuf (encodeArrayLoop t (kindBytes kind) l.length l buf off bits).1 ∧
      (∀ p, p < off →
        (encodeArrayLoop t (kindBytes kind) l.length l buf off bits).1.getD p 0
          = buf.getD p 0) := by
  have hbool : isBoolean t = false := by
    rw [(kind_facts t kind hsk).2.1]
    simp [hnb]
  have hobj : typeIsObject t = false := (kind_facts t kind hsk).2.2.2.1
  intro l
  induction l with
  | nil =>
    intro buf off bits _ hWF
    refine ⟨by simp [encodeArrayLoop], by simp [encodeArrayLoop],
      by simp [encodeArrayLoop], by simpa [encodeArrayLoop] using hWF,
      fun p _ => by simp [encodeArrayLoop]⟩
  | cons v vs ih =>
    intro buf off bits hWT hWF
    have hWTv := hWT v (List.mem_cons_self v vs)
    have hWTvs := fun x hx => hWT x (List.mem_cons_of_mem v hx)
    obtain ⟨hlen1, hWF1, hframe1⟩ :=
      encodeValue_facts t kind hsk hnb v hWTv buf off ((bits : Int) - 1)
        (kindBytes kind) hWF
    have hstep : encodeArrayLoop t (kindBytes kind) (v :: vs).length (v :: vs) buf off bits
        = encodeArrayLoop t (kindBytes kind) vs.length vs
            (encodeValueToBuffer buf (coerceNum t v) t off ((bits : Int) - 1) (kindBytes kind))
            (off + kindBytes kind) bits := by
      simp only [List.length_cons, encodeArrayLoop, hbool, hobj, List.headD_cons,
        List.tail_cons, Bool.false_eq_true, if_false, ite_false]
    rw [hstep]
    obtain ⟨ih1, ih2, ih3, ih4, ih5⟩ := ih _ (off + kindBytes kind) bits hWTvs hWF1
    refine ⟨by rw [ih1, List.length_cons]; ring, ih2, by rw [ih3, hlen1], ih4, ?_⟩
    intro p hp
    rw [ih5 p (by omega), hframe1 p (Or.inl hp)]

theorem parseArray_roundtrip (t : DataType) (kind : ScalarKind)
    (hsk : scalarKind? t = some kind) (hnb : kind ≠ .bl) :
    ∀ (l : List S7Val) (buf : Buffer) (off bits : Nat) (bufF : Buffer),
      (∀ v ∈ l, kindWT kind v) → WFBuf buf →
      off + l.length * kindBytes kind ≤ buf.length →
      (∀ q, q < off + l.length * kindBytes kind →
        bufF.getD q 0
          = (encodeArrayLoop t (kindBytes kind) l.length l buf off bits).1.getD q 0) →
      parseArrayLoop bufF t (kindBytes kind) l.length off bits
        = (l, off + l.length * kindBytes kind, bits) := by
  have hbool : isBoolean t = false := by
    rw [(kind_facts t kind hsk).2.1]
    simp [hnb]
  have hobj : typeIsObject t = false := (kind_facts t kind hsk).2.2.2.1
  intro l
  induction l with
  | nil =>
    intro buf off bits bufF _ _ _ _
    simp [parseArrayLoop]
  | cons v vs ih =>
    intro buf off bits bufF hWT hWF hlen hagree
    have hWTv := hWT v (List.mem_cons_self v vs)
    have hWTvs := fun x hx => hWT x (List.mem_cons_of_mem v hx)
    have hkb := kindBytes_pos t kind hsk
    obtain ⟨hlen1, hWF1, hframe1⟩ :=
      encodeValue_facts t kind hsk hnb v hWTv buf off ((bits : Int) - 1)
        (kindBytes kind) hWF
    have hstep : encodeArrayLoop t (kindBytes kind) (v :: vs).length (v :: vs) buf off bits
        = encodeArrayLoop t (kindBytes kind) vs.length vs
            (encodeValueToBuffer buf (coerceNum t v) t off ((bits : Int) - 1) (kindBytes kind))
            (off + kindBytes kind) bits := by
      simp only [List.length_cons, encodeArrayLoop, hbool, hobj, List.headD_cons,
        List.tail_cons, Bool.false_eq_true, if_false, ite_false]
    rw [hstep] at hagree
    obtain ⟨ef1, ef2, ef3, ef4, ef5⟩ :=
      encodeArray_facts t kind hsk hnb vs
        (encodeValueToBuffer buf (coerceNum t v) t off ((bits : Int) - 1) (kindBytes kind))
        (off + kindBytes kind) bits hWTvs hWF1
    have hcount : off + (v :: vs).length * kindBytes kind
        = (off + kindBytes kind) + vs.length * kindBytes kind := by
      rw [List.length_cons]
      ring
    have hv0 : parseValueFromBuffer bufF t off ((bits : Int) - 1) (kindBytes kind) = v := by
      apply encodeValue_readback t kind hsk hnb v hWTv buf off ((bits : Int) - 1)
        (kindBytes kind) hWF (by rw [List.length_cons] at hlen; nlinarith [hkb])
      intro q hq
      rw [hagree q (by rw [hcount]; omega)]
      exact ef5 q hq
    have hparse : parseArrayLoop bufF t (kindBytes kind) (v :: vs).length off bits
        = (v :: (parseArrayLoop bufF t (kindBytes kind) vs.length (off + kindBytes kind) bits).1,
           (parseArrayLoop bufF t (kindBytes kind) vs.length (off + kindBytes kind) bits).2.1,
           (parseArrayLoop bufF t (kindBytes kind) vs.length (off + kindBytes kind) bits).2.2) := by
      simp only [List.length_cons, parseArrayLoop, hbool, Bool.false_eq_true, if_false, ite_false]
      rw [hv0, coerceNum_WT t kind hsk v hWTv]
    rw [hparse]
    rw [ih (encodeValueToBuffer buf (coerceNum t v) t off ((bits : Int) - 1) (kindBytes kind))
      (off + kindBytes kind) bits bufF hWTvs hWF1
      (by
        have hd1 : (v :: vs).length * kindBytes kind
            = vs.length * kindBytes kind + kindBytes kind := by
          rw [List.length_cons]
          ring
        rw [hlen1]
        omega)
      (fun q hq => hagree q (by rw [hcount]; omega))]
    rw [hcount]

theorem encodeItems_single_scalar (it : S7DBStructureItem) (kind : ScalarKind)
    (hsk : scalarKind? it.type = some kind) (hnb : kind ≠ .bl)
    (hsz : it.size = some 1) (buf : Buffer) (off bits : Nat) :
    encodeItems [it] buf off bits
      = (encodeValueToBuffer buf (coerceNum it.type it.value) it.type
           (alignFor (kindBytes kind) (flushOff off bits)) ((0 : Int) - 1) (kindBytes kind),
         alignFor (kindBytes kind) (flushOff off bits) + kindBytes kind, 0) := by
  obtain ⟨hw, hb, hs, ho, hn⟩ := kind_facts it.type kind hsk
  have hbool : isBoolean it.type = false := by
    rw [hb]
    simp [hnb]
  have h80 : ¬ (8 : Nat) ≤ 0 := by omega
  simp only [encodeItems, hbool, hs, hsz, sizeGT1, hw, ho, flushOff, alignFor,
    Bool.false_eq_true, false_and, if_false, ite_false, decide_eq_true_eq,
    Nat.lt_irrefl, or_false, false_or, h80, Nat.cast_zero]

theorem parseItems_single_scalar (it : S7DBStructureItem) (kind : ScalarKind)
    (hsk : scalarKind? it.type = some kind) (hnb : kind ≠ .bl)
    (hsz : it.size = some 1) (b : Buffer) (off bits : Nat) :
    parseItems [it] b off bits
      = ([⟨it.name, it.type, parseValueFromBuffer b it.type
            (alignFor (kindBytes kind) (flushOff off bits)) ((0 : Int) - 1)
            (kindBytes kind)⟩],
         alignFor (kindBytes kind) (flushOff off bits) + kindBytes kind, 0) := by
  obtain ⟨hw, hb, hs, ho, hn⟩ := kind_facts it.type kind hsk
  have hbool : isBoolean it.type = false := by
    rw [hb]
    simp [hnb]
  have h80 : ¬ (8 : Nat) ≤ 0 := by omega
  simp only [parseItems, hbool, hs, hsz, sizeGT1, hw, ho, flushOff, alignFor,
    Bool.false_eq_true, false_and, if_false, ite_false, decide_eq_true_eq,
    Nat.lt_irrefl, or_false, false_or, List.append_nil, h80, Nat.cast_zero]

theorem encodeItems_single_bool (it : S7DBStructureItem)
    (ht : it.type = .BOOL) (hsz : it.size = some 1) (buf : Buffer) (off bits : Nat) :
    encodeItems [it] buf off bits
      = (encodeBooleanToBuffer (jsTruthy it.value) buf off (((bits + 1 : Nat) : Int) - 1),
         if 8 ≤ bits + 1 then (off + 1, 0) else (off, bits + 1)) := by
  have h11 : ¬ (1 : Nat) < 1 := by omega
  simp only [encodeItems, ht, hsz, sizeGT1, isBoolean, isString, typeIsObject,
    variableTypeSize, encodeValueToBuffer, decide_eq_true_eq, h11,
    Bool.true_eq_false, Bool.false_eq_true, and_false, false_and, if_false,
    ite_false, if_true, ite_true, or_self, coerceNum, typeIsNumber]
  split
  · rfl
  · rfl

theorem parseItems_single_bool (it : S7DBStructureItem)
    (ht : it.type = .BOOL) (hsz : it.size = some 1) (b : Buffer) (off bits : Nat) :
    parseItems [it] b off bits
      = ([⟨it.name, .BOOL, .bool (parseBooleanFromBuffer b off (((bits + 1 : Nat) : Int) - 1))⟩],
         if 8 ≤ bits + 1 then (off + 1, 0) else (off, bits + 1)) := by
  have h11 : ¬ (1 : Nat) < 1 := by omega
  simp only [parseItems, ht, hsz, sizeGT1, isBoolean, isString, typeIsObject,
    variableTypeSize, parseValueFromBuffer, decide_eq_true_eq, h11,
    Bool.true_eq_false, Bool.false_eq_true, and_false, false_and, if_false,
    ite_false, if_true, ite_true, or_self, List.append_nil]
  split
  · rfl
  · rfl

theorem encodeItems_array (it : S7DBStructureItem) (kind : ScalarKind)
    (hsk : scalarKind? it.type = some kind) (hnb : kind ≠ .bl)
    (k : Nat) (hsz : it.size = some k) (hk : 1 < k)
    (l : List S7Val) (hval : it.value = .arr l)
    (buf : Buffer) (off bits : Nat) :
    encodeItems [it] buf off bits
      = ((encodeArrayLoop it.type (kindBytes kind) k l buf
            (roundUpToEven (flushOff off bits)) 0).1,
         roundUpToEven (encodeArrayLoop it.type (kindBytes kind) k l buf
            (roundUpToEven (flushOff off bits)) 0).2.1,
         (encodeArrayLoop it.type (kindBytes kind) k l buf
            (roundUpToEven (flushOff off bits)) 0).2.2) := by
  obtain ⟨hw, hb, hs, ho, hn⟩ := kind_facts it.type kind hsk
  have hbool : isBoolean it.type = false := by
    rw [hb]
    simp [hnb]
  simp only [encodeItems, hbool, hs, hsz, hval, sizeGT1, isArr, hw, flushOff,
    Bool.false_eq_true, false_and, if_false, ite_false, decide_eq_true_eq, hk,
    if_true, ite_true, and_true, true_and, and_self, jsArrElems, Option.getD_some]

theorem parseItems_array (it : S7DBStructureItem) (kind : ScalarKind)
    (hsk : scalarKind? it.type = some kind) (hnb : kind ≠ .bl)
    (k : Nat) (hsz : it.size = some k) (hk : 1 < k)
    (b : Buffer) (off bits : Nat) :
    parseItems [it] b off bits
      = ([⟨it.name, it.type,
            .arr (parseArrayLoop b it.type (kindBytes kind) k
              (roundUpToEven (flushOff off bits)) 0).1⟩],
         roundUpToEven (parseArrayLoop b it.type (kindBytes kind) k
            (roundUpToEven (flushOff off bits)) 0).2.1,
         (parseArrayLoop b it.type (kindBytes kind) k
            (roundUpToEven (flushOff off bits)) 0).2.2) := by
  obtain ⟨hw, hb, hs, ho, hn⟩ := kind_facts it.type kind hsk
  have hbool : isBoolean it.type = false := by
    rw [hb]
    simp [hnb]
  simp only [parseItems, hbool, hs, ho, hsz, sizeGT1, hw, flushOff,
    Bool.false_eq_true, false_and, if_false, ite_false, decide_eq_true_eq, hk,
    if_true, ite_true, and_true, true_and, and_self, Option.getD_some,
    List.append_nil]

theorem boolByte_lt (value : Bool) (byte j : Nat) (hbyte : byte < 256) (hj : j ≤ 7) :
    (if value then byte ||| 2 ^ j else byte &&& (0xFFFFFFFF ^^^ 2 ^ j)) < 256 := by
  have h2j : (2 : Nat) ^ j < 2 ^ 8 := Nat.pow_lt_pow_right (by omega) (by omega)
  have hor := Nat.or_lt_two_pow (show byte < 2 ^ 8 by omega) h2j
  have hand := @Nat.and_le_left byte (0xFFFFFFFF ^^^ 2 ^ j)
  split <;> omega

theorem encodeBoolean_skip (value : Bool) (b : Buffer) (off : Nat) (i : Int)
    (hoff : ¬ off < b.length) :
    encodeBooleanToBuffer value b off i = b := by
  unfold encodeBooleanToBuffer writeUIntN
  dsimp only
  rw [if_neg (fun hcon => absurd hcon.2.2 (by omega))]

theorem idx_cast (bits : Nat) : ((bits + 1 : Nat) : Int) - 1 = ((bits : Nat) : Int) := by
  push_cast
  ring

theorem goodN_cases (it : S7DBStructureItem) (hgood : goodN it) :
    (∃ bv, it.type = .BOOL ∧ it.size = some 1 ∧ it.value = .bool bv) ∨
    (∃ kind, scalarKind? it.type = some kind ∧ kind ≠ .bl ∧ it.size = some 1 ∧
      kindWT kind it.value) ∨
    (∃ kind k l, scalarKind? it.type = some kind ∧ kind ≠ .bl ∧ it.size = some k ∧
      1 < k ∧ it.value = .arr l ∧ l.length = k ∧ ∀ v ∈ l, kindWT kind v) := by
  obtain ⟨kind, k, hsk, hsz, hk1, hWT1, hWTk⟩ := hgood
  by_cases hk : 1 < k
  · obtain ⟨hnb, l, hval, hllen, hWTl⟩ := hWTk hk
    exact Or.inr (Or.inr ⟨kind, k, l, hsk, hnb, hsz, hk, hval, hllen, hWTl⟩)
  · have hke : k = 1 := by omega
    subst hke
    have hWT := hWT1 rfl
    by_cases hbl : kind = .bl
    · subst hbl
      have ht := scalarKind_bl it.type hsk
      cases hv : it.value <;> rw [hv] at hWT <;> simp [kindWT] at hWT
      exact Or.inl ⟨_, ht, hsz, rfl⟩
    · exact Or.inr (Or.inl ⟨kind, hsk, hbl, hsz, hWT⟩)

theorem flushOff_facts (off bits : Nat) :
    off ≤ flushOff off bits ∧ flushOff off bits ≤ off + 1 ∧
      (0 < bits → flushOff off bits = off + 1) := by
  unfold flushOff
  split <;> omega

theorem roundUp_facts (x : Nat) : x ≤ roundUpToEven x ∧ roundUpToEven x ≤ x + 1 ∧
    roundUpToEven x % 2 = 0 := by
  unfold roundUpToEven
  omega

theorem alignFor_facts (n x : Nat) : x ≤ alignFor n x ∧ alignFor n x ≤ x + 1 := by
  unfold alignFor roundUpToEven
  split <;> omega

theorem itemFacts (it : S7DBStructureItem) (hgood : goodN it) (buf : Buffer)
    (off bits : Nat) (hbits : bits ≤ 7) (hWF : WFBuf buf) :
    (encodeItems [it] buf off bits).1.length = buf.length ∧
    WFBuf (encodeItems [it] buf off bits).1 ∧
    agreeBelow buf (encodeItems [it] buf off bits).1 off bits ∧
    posOf off bits ≤ posOf (encodeItems [it] buf off bits).2.1
      (encodeItems [it] buf off bits).2.2 ∧
    (encodeItems [it] buf off bits).2.2 ≤ 7 := by
  rcases goodN_cases it hgood with ⟨bv, ht, hsz, hval⟩ | ⟨kind, hsk, hnb, hsz, hWT⟩ |
    ⟨kind, k, l, hsk, hnb, hsz, hk, hval, hllen, hWTl⟩
  · rw [encodeItems_single_bool it ht hsz, idx_cast]
    dsimp only
    by_cases hoff : off < buf.length
    · rw [encodeBoolean_spec (jsTruthy it.value) buf off bits hbits hWF hoff]
      refine ⟨by simp, ?_, ⟨?_, ?_⟩, ?_, ?_⟩
      · intro p
        by_cases hp : p = off
        · subst hp
          rw [getD_set_self _ _ _ hoff]
          exact boolByte_lt _ _ _ (hWF _) hbits
        · rw [getD_set_ne _ _ _ _ (fun h => hp h.symm)]
          exact hWF p
      · intro p hp
        rw [getD_set_ne _ _ _ _ (by omega)]
      · intro j hj
        rw [getD_set_self _ _ _ hoff, testBit_set_bool _ _ _ _ (by omega),
          if_neg (by omega)]
      · split <;> simp [posOf] <;> omega
      · split <;> simp
        omega
    · rw [encodeBoolean_skip _ _ _ _ hoff]
      refine ⟨rfl, hWF, agreeBelow_refl _ _ _, ?_, ?_⟩
      · split <;> simp [posOf] <;> omega
      · split <;> simp
        omega
  · rw [encodeItems_single_scalar it kind hsk hnb hsz]
    dsimp only
    obtain ⟨hl, hw, hf⟩ := encodeValue_facts it.type kind hsk hnb it.value hWT buf
      (alignFor (kindBytes kind) (flushOff off bits)) ((0 : Int) - 1) (kindBytes kind) hWF
    have hkb := kindBytes_pos it.type kind hsk
    obtain ⟨hf1, hf2, hf3⟩ := flushOff_facts off bits
    obtain ⟨ha1, ha2⟩ := alignFor_facts (kindBytes kind) (flushOff off bits)
    refine ⟨hl, hw, ⟨?_, ?_⟩, ?_, by omega⟩
    · intro p hp
      exact hf p (Or.inl (by omega))
    · intro j hj
      have hlt2 : off < alignFor (kindBytes kind) (flushOff off bits) := by
        have := hf3 (by omega)
        omega
      rw [hf off (Or.inl hlt2)]
    · unfold posOf
      by_cases hq : 0 < bits
      · have := hf3 hq
        omega
      · omega
  · rw [encodeItems_array it kind hsk hnb k hsz hk l hval]
    dsimp only
    rw [← hllen]
    obtain ⟨ef1, ef2, ef3, ef4, ef5⟩ := encodeArray_facts it.type kind hsk hnb l buf
      (roundUpToEven (flushOff off bits)) 0 hWTl hWF
    have hkb := kindBytes_pos it.type kind hsk
    have hmul : 1 ≤ l.length * kindBytes kind := by
      have h1 : 1 ≤ l.length := by omega
      exact Nat.mul_le_mul h1 hkb
    obtain ⟨hf1, hf2, hf3⟩ := flushOff_facts off bits
    obtain ⟨hr1, hr2, hr3⟩ := roundUp_facts (flushOff off bits)
    obtain ⟨hs1, hs2, hs3⟩ :=
      roundUp_facts (roundUpToEven (flushOff off bits) + l.length * kindBytes kind)
    refine ⟨ef3, ef4, ⟨?_, ?_⟩, ?_, by rw [ef2]; omega⟩
    · intro p hp
      exact ef5 p (by omega)
    · intro j hj
      have hlt2 : off < roundUpToEven (flushOff off bits) := by
        have := hf3 (by omega)
        omega
      rw [ef5 off hlt2]
    · rw [ef1, ef2]
      unfold posOf
      by_cases hq : 0 < bits
      · have := hf3 hq
        omega
      · omega

theorem roundUp_idem (x : Nat) : roundUpToEven (roundUpToEven x) = roundUpToEven x := by
  unfold roundUpToEven
  omega

theorem encodeItems_cons (it : S7DBStructureItem) (rest : List S7DBStructureItem)
    (b : Buffer) (off bits : Nat) :
    encodeItems (it :: rest) b off bits
      = encodeItems rest (encodeItems [it] b off bits).1
          (encodeItems [it] b off bits).2.1 (encodeItems [it] b off bits).2.2 := rfl

theorem parseItems_cons (it : S7DBStructureItem) (rest : List S7DBStructureItem)
    (b : Buffer) (off bits : Nat) :
    parseItems (it :: rest) b off bits
      = ((parseItems [it] b off bits).1
          ++ (parseItems rest b (parseItems [it] b off bits).2.1
                (parseItems [it] b off bits).2.2).1,
         (parseItems rest b (parseItems [it] b off bits).2.1
            (parseItems [it] b off bits).2.2).2.1,
         (parseItems rest b (parseItems [it] b off bits).2.1
            (parseItems [it] b off bits).2.2).2.2) := by
  simp only [parseItems, List.append_nil]

theorem itemRoundtrip (it : S7DBStructureItem) (hgood : goodN it) (buf : Buffer)
    (off bits : Nat) (hbits : bits ≤ 7) (hWF : WFBuf buf)
    (hfit : posOf (encodeItems [it] buf off bits).2.1 (encodeItems [it] buf off bits).2.2
      ≤ 8 * buf.length)
    (bufF : Buffer)
    (hagree : agreeBelow (encodeItems [it] buf off bits).1 bufF
      (encodeItems [it] buf off bits).2.1 (encodeItems [it] buf off bits).2.2) :
    parseItems [it] bufF off bits
      = ([expectedData it], (encodeItems [it] buf off bits).2.1,
         (encodeItems [it] buf off bits).2.2) := by
  rcases goodN_cases it hgood with ⟨bv, ht, hsz, hval⟩ | ⟨kind, hsk, hnb, hsz, hWT⟩ |
    ⟨kind, k, l, hsk, hnb, hsz, hk, hval, hllen, hWTl⟩
  · rw [encodeItems_single_bool it ht hsz, idx_cast] at hfit hagree
    rw [parseItems_single_bool it ht hsz, idx_cast, encodeItems_single_bool it ht hsz,
      idx_cast]
    rw [hval] at hfit hagree ⊢
    simp only [jsTruthy] at hfit hagree ⊢
    by_cases h8 : 8 ≤ bits + 1
    · rw [if_pos h8] at hfit hagree ⊢
      dsimp only at hfit hagree ⊢
      have hoff : off < buf.length := by
        unfold posOf at hfit
        omega
      have hb : parseBooleanFromBuffer bufF off ((bits : Nat) : Int) = bv := by
        rw [parseBool_testBit bufF off bits hbits]
        rw [show readUInt8 bufF off = bufF.getD off 0 from rfl]
        rw [testBit_of_agree _ bufF (off + 1) 0 off bits hagree
          (by unfold posOf; omega) (by omega)]
        rw [encodeBoolean_spec bv buf off bits hbits hWF hoff]
        rw [getD_set_self _ _ _ hoff]
        rw [testBit_set_bool bv (buf.getD off 0) bits bits (by omega)]
        simp
      rw [hb, expectedData, ht, hval]
    · rw [if_neg h8] at hfit hagree ⊢
      dsimp only at hfit hagree ⊢
      have hoff : off < buf.length := by
        unfold posOf at hfit
        omega
      have hb : parseBooleanFromBuffer bufF off ((bits : Nat) : Int) = bv := by
        rw [parseBool_testBit bufF off bits hbits]
        rw [show readUInt8 bufF off = bufF.getD off 0 from rfl]
        rw [testBit_of_agree _ bufF off (bits + 1) off bits hagree
          (by unfold posOf; omega) (by omega)]
        rw [encodeBoolean_spec bv buf off bits hbits hWF hoff]
        rw [getD_set_self _ _ _ hoff]
        rw [testBit_set_bool bv (buf.getD off 0) bits bits (by omega)]
        simp
      rw [hb, expectedData, ht, hval]
  · rw [encodeItems_single_scalar it kind hsk hnb hsz] at hfit hagree
    rw [parseItems_single_scalar it kind hsk hnb hsz,
      encodeItems_single_scalar it kind hsk hnb hsz]
    dsimp only at hfit hagree ⊢
    have hlen : alignFor (kindBytes kind) (flushOff off bits) + kindBytes kind
        ≤ buf.length := by
      unfold posOf at hfit
      omega
    have hv : parseValueFromBuffer bufF it.type
        (alignFor (kindBytes kind) (flushOff off bits)) ((0 : Int) - 1)
        (kindBytes kind) = it.value := by
      apply encodeValue_readback it.type kind hsk hnb it.value hWT buf
        (alignFor (kindBytes kind) (flushOff off bits)) ((0 : Int) - 1)
        (kindBytes kind) hWF hlen bufF
      intro q hq
      exact hagree.1 q hq
    rw [hv]
    rfl
  · rw [encodeItems_array it kind hsk hnb k hsz hk l hval] at hfit hagree
    rw [parseItems_array it kind hsk hnb k hsz hk,
      encodeItems_array it kind hsk hnb k hsz hk l hval]
    rw [← hllen] at hfit hagree ⊢
    dsimp only at hfit hagree ⊢
    obtain ⟨ef1, ef2, ef3, ef4, ef5⟩ := encodeArray_facts it.type kind hsk hnb l buf
      (roundUpToEven (flushOff off bits)) 0 hWTl hWF
    rw [ef1, ef2] at hfit hagree ⊢
    obtain ⟨hs1, hs2, hs3⟩ :=
      roundUp_facts (roundUpToEven (flushOff off bits) + l.length * kindBytes kind)
    have hlen : roundUpToEven (flushOff off bits) + l.length * kindBytes kind
        ≤ buf.length := by
      unfold posOf at hfit
      omega
    have hp : parseArrayLoop bufF it.type (kindBytes kind) l.length
        (roundUpToEven (flushOff off bits)) 0
        = (l, roundUpToEven (flushOff off bits) + l.length * kindBytes kind, 0) := by
      apply parseArray_roundtrip it.type kind hsk hnb l buf
        (roundUpToEven (flushOff off bits)) 0 bufF hWTl hWF hlen
      intro q hq
      exact hagree.1 q (by omega)
    rw [hp]
    rw [expectedData, hval]

theorem walkFacts (items : List S7DBStructureItem) :
    (∀ it ∈ items, goodN it) →
    ∀ (buf : Buffer) (off bits : Nat), bits ≤ 7 → WFBuf buf →
    (encodeItems items buf off bits).1.length = buf.length ∧
    WFBuf (encodeItems items buf off bits).1 ∧
    agreeBelow buf (encodeItems items buf off bits).1 off bits ∧
    posOf off bits ≤ posOf (encodeItems items buf off bits).2.1
      (encodeItems items buf off bits).2.2 ∧
    (encodeItems items buf off bits).2.2 ≤ 7 := by
  induction items with
  | nil =>
    intro _ buf off bits hbits hWF
    exact ⟨rfl, hWF, agreeBelow_refl _ _ _, le_refl _, hbits⟩
  | cons it rest ih =>
    intro hgood buf off bits hbits hWF
    have hgit := hgood it (List.mem_cons_self it rest)
    have hgrest := fun x hx => hgood x (List.mem_cons_of_mem it hx)
    rw [encodeItems_cons]
    obtain ⟨if1, if2, if3, if4, if5⟩ := itemFacts it hgit buf off bits hbits hWF
    obtain ⟨w1, w2, w3, w4, w5⟩ := ih hgrest (encodeItems [it] buf off bits).1
      (encodeItems [it] buf off bits).2.1 (encodeItems [it] buf off bits).2.2 if5 if2
    refine ⟨by rw [w1, if1], w2, ?_, by omega, w5⟩
    exact agreeBelow_trans_mono buf (encodeItems [it] buf off bits).1 _ off bits _ _
      if3 w3 if4 hbits if5

theorem walkRoundtrip (items : List S7DBStructureItem) :
    (∀ it ∈ items, goodN it) →
    ∀ (buf : Buffer) (off bits : Nat), bits ≤ 7 → WFBuf buf →
    posOf (encodeItems items buf off bits).2.1 (encodeItems items buf off bits).2.2
      ≤ 8 * buf.length →
    parseItems items (encodeItems items buf off bits).1 off bits
      = (items.map expectedData, (encodeItems items buf off bits).2.1,
         (encodeItems items buf off bits).2.2) := by
  induction items with
  | nil =>
    intro _ buf off bits _ _ _
    rfl
  | cons it rest ih =>
    intro hgood buf off bits hbits hWF hfit
    have hgit := hgood it (List.mem_cons_self it rest)
    have hgrest := fun x hx => hgood x (List.mem_cons_of_mem it hx)
    rw [encodeItems_cons] at hfit ⊢
    obtain ⟨if1, if2, if3, if4, if5⟩ := itemFacts it hgit buf off bits hbits hWF
    obtain ⟨w1, w2, w3, w4, w5⟩ := walkFacts rest hgrest (encodeItems [it] buf off bits).1
      (encodeItems [it] buf off bits).2.1 (encodeItems [it] buf off bits).2.2 if5 if2
    have hhead := itemRoundtrip it hgit buf off bits hbits hWF
      (by omega)
      (encodeItems rest (encodeItems [it] buf off bits).1
        (encodeItems [it] buf off bits).2.1 (encodeItems [it] buf off bits).2.2).1
      w3
    rw [parseItems_cons, hhead]
    dsimp only
    rw [ih hgrest (encodeItems [it] buf off bits).1
      (encodeItems [it] buf off bits).2.1 (encodeItems [it] buf off bits).2.2 if5 if2
      (by rw [if1]; exact hfit)]
    simp

theorem normSize_of_not_GT1 (o : Option Nat) (h : sizeGT1 o = false) : normSize o = 1 := by
  cases o with
  | none => rfl
  | some k =>
    simp only [sizeGT1, decide_eq_false_iff_not, not_lt] at h
    simp only [normSize]
    split <;> omega

theorem goodItem_cases (it : S7DBStructureItem) (hgood : goodItem it) :
    (∃ bv, it.type = .BOOL ∧ sizeGT1 it.size = false ∧ it.value = .bool bv ∧
      scalarKind? it.type = some .bl) ∨
    (∃ kind, scalarKind? it.type = some kind ∧ kind ≠ .bl ∧ sizeGT1 it.size = false ∧
      kindWT kind it.value) ∨
    (∃ kind k l, scalarKind? it.type = some kind ∧ kind ≠ .bl ∧ it.size = some k ∧
      1 < k ∧ normSize it.size = k ∧ it.value = .arr l ∧ l.length = k ∧
      ∀ v ∈ l, kindWT kind v) := by
  unfold goodItem at hgood
  cases hsk : scalarKind? it.type with
  | none =>
    rw [hsk] at hgood
    exact hgood.elim
  | some kind =>
    rw [hsk] at hgood
    dsimp only at hgood
    by_cases hgt : sizeGT1 it.size = true
    · rw [if_pos hgt] at hgood
      obtain ⟨hnb, l, hval, hllen, hWTl⟩ := hgood
      cases hso : it.size with
      | none => rw [hso] at hgt; exact absurd hgt (by simp [sizeGT1])
      | some k0 =>
        have hk0 : 1 < k0 := by
          rw [hso] at hgt
          simpa [sizeGT1] using hgt
        exact Or.inr (Or.inr ⟨kind, k0, l, rfl, hnb, rfl, hk0,
          by simp only [normSize]; split <;> omega, hval,
          by rw [hllen, hso]; simp only [normSize]; split <;> omega, hWTl⟩)
    · rw [if_neg hgt] at hgood
      have hgtf : sizeGT1 it.size = false := by simpa using hgt
      by_cases hbl : kind = .bl
      · subst hbl
        have ht := scalarKind_bl it.type hsk
        cases hv : it.value <;> rw [hv] at hgood <;> simp only [kindWT] at hgood
        exact Or.inl ⟨_, ht, hgtf, rfl, rfl⟩
      · exact Or.inr (Or.inl ⟨kind, rfl, hbl, hgtf, hgood⟩)

theorem encodeArrayLoop_cursor (t : DataType) (ts : Nat) (hbool : isBoolean t = false) :
    ∀ (k : Nat) (vals : List S7Val) (b : Buffer) (off bits : Nat),
      (encodeArrayLoop t ts k vals b off bits).2.1 = off + k * ts ∧
      (encodeArrayLoop t ts k vals b off bits).2.2 = bits := by
  intro k
  induction k with
  | zero =>
    intro vals b off bits
    exact ⟨by simp [encodeArrayLoop], rfl⟩
  | succ n ih =>
    intro vals b off bits
    simp only [encodeArrayLoop, hbool, Bool.false_eq_true, if_false, ite_false]
    obtain ⟨h1, h2⟩ := ih vals.tail _ (off + ts) bits
    refine ⟨?_, h2⟩
    rw [h1]
    ring

theorem calcItems_goodN (items : List S7DBStructureItem) :
    (∀ it ∈ items, goodItem it) → ∀ (start total bits : Nat),
    ∀ it2 ∈ (calcItems items start total bits).2.2, goodN it2 := by
  induction items with
  | nil =>
    intro _ start total bits it2 h2
    simp [calcItems] at h2
  | cons it rest ih =>
    intro hgood start total bits it2 h2
    have hgit := hgood it (List.mem_cons_self it rest)
    have hgrest := fun x hx => hgood x (List.mem_cons_of_mem it hx)
    simp only [calcItems] at h2
    rcases List.mem_cons.mp h2 with rfl | h2
    · rcases goodItem_cases it hgit with ⟨bv, ht, hsz, hval, hskbl⟩ |
        ⟨kind, hsk, hnb, hsz, hWT⟩ |
        ⟨kind, k, l, hsk, hnb, hso, hk, hnorm, hval, hllen, hWTl⟩
      · exact ⟨.bl, 1, hskbl, by rw [normSize_of_not_GT1 it.size hsz],
          by omega, fun _ => by rw [hval]; trivial,
          fun hcon => absurd hcon (by omega)⟩
      · exact ⟨kind, 1, hsk, by rw [normSize_of_not_GT1 it.size hsz],
          by omega, fun _ => hWT, fun hcon => absurd hcon (by omega)⟩
      · exact ⟨kind, k, hsk, by rw [hnorm], by omega,
          fun hcon => absurd hcon (by omega),
          fun _ => ⟨hnb, l, hval, hllen, hWTl⟩⟩
    · exact ih hgrest start _ _ it2 h2

theorem calcItems_expected (items : List S7DBStructureItem) (start total bits : Nat) :
    ((calcItems items start total bits).2.2).map expectedData = items.map expectedData := by
  have h := calcItems_preserves items start total bits
  have h2 := congrArg
    (List.map (fun p : String × DataType × S7Val => (⟨p.1, p.2.1, p.2.2⟩ : S7Data))) h
  simpa only [List.map_map, Function.comp, expectedData] using h2

theorem calc_walk_lockstep (items : List S7DBStructureItem) :
    (∀ it ∈ items, goodItem it) → ∀ (start total bits : Nat) (buf : Buffer),
    (encodeItems (calcItems items start total bits).2.2 buf total bits).2.1
        = (calcItems items start total bits).1 ∧
    (encodeItems (calcItems items start total bits).2.2 buf total bits).2.2
        = (calcItems items start total bits).2.1 := by
  induction items with
  | nil =>
    intro _ start total bits buf
    exact ⟨rfl, rfl⟩
  | cons it rest ih =>
    intro hgood start total bits buf
    have hgit := hgood it (List.mem_cons_self it rest)
    have hgrest := fun x hx => hgood x (List.mem_cons_of_mem it hx)
    rcases goodItem_cases it hgit with ⟨bv, ht, hsz, hval, hskbl⟩ |
      ⟨kind, hsk, hnb, hsz, hWT⟩ |
      ⟨kind, k, l, hsk, hnb, hso, hk, hnorm, hval, hllen, hWTl⟩
    · have hbool : isBoolean it.type = true := by rw [ht]; rfl
      have hstr : isString it.type = false := by rw [ht]; rfl
      have hobj : typeIsObject it.type = false := by rw [ht]; rfl
      have hts : variableTypeSize it.type = 1 := by rw [ht]; rfl
      have hns : normSize it.size = 1 := normSize_of_not_GT1 it.size hsz
      simp only [calcItems, encodeItems, hbool, hstr, hobj, hts, hns, sizeGT1,
        Bool.true_eq_false, Bool.false_eq_true, and_false, false_and, and_true,
        true_and, if_true, if_false, ite_true, ite_false, decide_eq_true_eq,
        Nat.lt_irrefl, add_zero, or_false, false_or, Nat.not_lt_zero]
      exact ih hgrest start _ _ _
    · obtain ⟨hw, hb, hs, ho, hn⟩ := kind_facts it.type kind hsk
      have hbool : isBoolean it.type = false := by
        rw [hb]
        simp [hnb]
      have hns : normSize it.size = 1 := normSize_of_not_GT1 it.size hsz
      simp only [calcItems, encodeItems, hbool, hs, ho, hw, hns, sizeGT1,
        Bool.true_eq_false, Bool.false_eq_true, and_false, false_and, and_true,
        true_and, if_true, if_false, ite_true, ite_false, decide_eq_true_eq,
        Nat.lt_irrefl, add_zero, or_false, false_or, Nat.not_lt_zero]
      split_ifs <;>
        first
        | exact ih hgrest start _ _ _
        | (rw [roundUp_idem]; exact ih hgrest start _ _ _)
        | omega
    · obtain ⟨hw, hb, hs, ho, hn⟩ := kind_facts it.type kind hsk
      have hbool : isBoolean it.type = false := by
        rw [hb]
        simp [hnb]
      have hgt : sizeGT1 (some k) = true := by simp [sizeGT1, hk]
      simp only [calcItems, encodeItems, hbool, hs, ho, hw, hnorm, hval, hgt,
        isArr, jsArrElems, Option.getD_some, sizeGT1, Bool.true_eq_false,
        Bool.false_eq_true, and_false, false_and, and_true, true_and, if_true,
        if_false, ite_true, ite_false, decide_eq_true_eq, Nat.lt_irrefl,
        add_zero, or_false, false_or, Nat.not_lt_zero, hk]
      obtain ⟨hc1, hc2⟩ := encodeArrayLoop_cursor it.type (kindBytes kind) hbool k l buf
        (roundUpToEven (if 0 < bits then total + 1 else total)) 0
      rw [hc1, hc2]
      rw [show k * kindBytes kind = kindBytes kind * k from Nat.mul_comm _ _]
      split_ifs <;>
        first
        | exact ih hgrest start _ _ _
        | (rw [roundUp_idem]; exact ih hgrest start _ _ _)
        | omega

/-- C1 (amended): for every datablock all of whose items are classified
scalar items carrying values of their declared types — a single well-typed
scalar value (`BOOL`, the byte/word/dword/lword family, `CHAR`, and the
float types at bit-pattern level), or for a declared count above 1 an array
of exactly that many well-typed non-boolean scalars — the decode of the
encode returns exactly the items' names, types and original values.  The
exclusions forced by the counterexample and by C3/C4 remain: `STRING` is
capacity-truncated, `S5TIME` timebase-quantized, and `BIT`, `IEC_TIMER` and
boolean arrays do not round-trip. -/
theorem C1_roundtrip (db : S7DBStructure)
    (hgood : ∀ it ∈ db.items, goodItem it) :
    DBStructure_parse (normalizeDB db) (DBStructure_encode db)
      = db.items.map expectedData := by
  unfold DBStructure_parse normalizeDB DBStructure_encode DBStructure_calculateSize
  dsimp only
  have hexp := calcItems_expected db.items db.offset 0 0
  have hgood2 := calcItems_goodN db.items hgood db.offset 0 0
  have hlock := calc_walk_lockstep db.items hgood db.offset 0 0
  generalize hc : calcItems db.items db.offset 0 0 = c
  rw [hc] at hexp hgood2 hlock
  obtain ⟨hl1, hl2⟩ :=
    hlock (Buffer.alloc (roundUpToEven (if 0 < c.2.1 then c.1 + 1 else c.1)))
  obtain ⟨hwl, hwW, hwA, hwP, hb7⟩ := walkFacts c.2.2 hgood2
    (Buffer.alloc (roundUpToEven (if 0 < c.2.1 then c.1 + 1 else c.1))) 0 0
    (by omega) (alloc_WF _)
  rw [hl2] at hb7
  have hfit : posOf
      (encodeItems c.2.2
        (Buffer.alloc (roundUpToEven (if 0 < c.2.1 then c.1 + 1 else c.1))) 0 0).2.1
      (encodeItems c.2.2
        (Buffer.alloc (roundUpToEven (if 0 < c.2.1 then c.1 + 1 else c.1))) 0 0).2.2
      ≤ 8 * (Buffer.alloc (roundUpToEven (if 0 < c.2.1 then c.1 + 1 else c.1))).length := by
    rw [alloc_length, hl1, hl2]
    obtain ⟨hr1, hr2, hr3⟩ := roundUp_facts (if 0 < c.2.1 then c.1 + 1 else c.1)
    unfold posOf
    by_cases h0 : 0 < c.2.1
    · rw [if_pos h0] at hr1 hr2 ⊢
      omega
    · rw [if_neg h0] at hr1 hr2 ⊢
      omega
  rw [walkRoundtrip c.2.2 hgood2
    (Buffer.alloc (roundUpToEven (if 0 < c.2.1 then c.1 + 1 else c.1))) 0 0
    (by omega) (alloc_WF _) hfit]
  exact hexp

/-- C1 witness: the amended round trip evaluated at the concrete mixed
datablock `c1gooddb` (UINT, two single BOOLs, SINT, DINT, CHAR, a WORD
array and an LREAL bit pattern). -/
theorem C1_roundtrip_witness :
    DBStructure_parse (normalizeDB c1gooddb) (DBStructure_encode c1gooddb)
      = c1gooddb.items.map expectedData := by
  apply C1_roundtrip c1gooddb
  intro it hit
  simp only [c1gooddb, List.mem_cons, List.not_mem_nil, or_false] at hit
  rcases hit with rfl | rfl | rfl | rfl | rfl | rfl | rfl | rfl
  · exact by
      simp only [goodItem, scalarKind?, sizeGT1, kindWT, Bool.false_eq_true,
        if_false, ite_false]
      try decide
  · exact by
      simp only [goodItem, scalarKind?, sizeGT1, kindWT, Bool.false_eq_true,
        if_false, ite_false]
      try decide
  · exact by
      simp only [goodItem, scalarKind?, sizeGT1, kindWT, Bool.false_eq_true,
        if_false, ite_false]
      try decide
  · exact by
      simp only [goodItem, scalarKind?, sizeGT1, kindWT, Bool.false_eq_true,
        if_false, ite_false]
      try decide
  · exact by
      simp only [goodItem, scalarKind?, sizeGT1, kindWT, Bool.false_eq_true,
        if_false, ite_false]
      try decide
  · exact ⟨65, rfl, by decide⟩
  · refine ⟨by decide, [.num 7, .num 8, .num 9], rfl, by decide, ?_⟩
    intro v hv
    simp only [List.mem_cons, List.not_mem_nil, or_false] at hv
    rcases hv with rfl | rfl | rfl
    · exact ⟨by decide, by decide⟩
    · exact ⟨by decide, by decide⟩
    · exact ⟨by decide, by decide⟩
  · exact ⟨by decide, by decide⟩
